import Mathlib

/-! Verification of biscuit `stats.c` over the reals.

The definitions below embed `src/lib/utils/stats.c` (with the constants of
`src/include/stats.h`) function by function.

Conventions of the embedding.

* `double` is modelled by `ℝ`: rounding, overflow, infinities and NaN are not
  modelled.  The C library functions `log`, `exp` are `Real.log`, `Real.exp`;
  `Real.log` agrees with C `log` on positive arguments (at non-positive arguments
  C yields `-inf`/NaN, which are not real numbers), so the theorems that depend
  on a logarithm carry the hypotheses that make its argument positive.
* One rounding decides a branch and is modelled: the constant expression
  `1-FPMIN` of `ln_binom_kernel` is `1.0` in `double` arithmetic (`1e-30` is far
  below the spacing `2^-53` of the doubles next to 1), so it is modelled by its
  double value `one_minus_FPMIN = 1` and the upper clamp never lowers a `p ≤ 1`,
  as in the program.  For `error ≤ 2^-54` the program also computes
  `pv(1.0) = 1.0` and then `log(1 - p) = -inf`, which no real number models: the
  evaluation of `ln_binom_kernel` at `p = 1` records this path, and the theorem on
  the increments of `genotype_lnlik` is stated for error rates of at least `1e-6`,
  where `double` arithmetic keeps `log(1 - error)` accurate to ten digits.
* `int` is modelled by `ℤ` (no wrap-around: read counts are assumed to stay in
  range, signed overflow being undefined in C).
* `perror(..); abort();` is modelled by the `Except.error` outcome carrying the
  diagnostic; a normal `return v` is `Except.ok v`.  Where C leaves the order
  of evaluation of operands open, calls are sequenced left to right.
-/

namespace Stats

open Real

/-! ## Constants of `stats.h` -/

/-- Constant `MAXIT` of `stats.h`: `#define MAXIT 100`. -/
def MAXIT : ℕ := 100

/-- Constant `EPS` of `stats.h`: `#define EPS 3.0e-7`. -/
noncomputable def EPS : ℝ := 3 / 10 ^ 7

/-- Constant `FPMIN` of `stats.h`: `#define FPMIN 1.0e-30`. -/
noncomputable def FPMIN : ℝ := 1 / 10 ^ 30

/-- Value of the C expression `1-FPMIN` in `double` arithmetic: `FPMIN = 1e-30` is far
below the spacing `2^-53` of the doubles next to 1, so the subtraction rounds to `1.0`. -/
noncomputable def one_minus_FPMIN : ℝ := 1

/-- Genotype tags of `stats.h`: `typedef enum{HOMOREF = 0, HET = 1, HOMOVAR = 2} Genotype;`
a C enumeration is an integer, so other tags can reach a `switch`. -/
abbrev Genotype := ℤ

/-- Tag `HOMOREF = 0`. -/
def HOMOREF : Genotype := 0

/-- Tag `HET = 1`. -/
def HET : Genotype := 1

/-- Tag `HOMOVAR = 2`. -/
def HOMOVAR : Genotype := 2

/-- Diagnostics of the `perror(..); abort();` exits of `stats.c`. -/
inductive Abort where
  /-- From `beta_cf`: "a or b too big, or MAXIT too small in betacf". -/
  | betacf_maxit
  /-- From `beta_inc`: "Bad x in routine betai". -/
  | betai_bad_x
  /-- From `ln_beta_inc`: "Bad x in ln_betai". -/
  | ln_betai_bad_x
  /-- From the likelihood layer: "Contamination extent cannot be negative.". -/
  | negative_contam
  /-- From `genotype_lnlik`: "Genotype not recognized". -/
  | genotype_unrecognized
  deriving DecidableEq, Repr

/-! ## C library functions -/

/-- C `fabs`. -/
noncomputable def fabs (x : ℝ) : ℝ := |x|

/-- C `lgamma`: the natural logarithm of the absolute value of the Gamma function. -/
noncomputable def lgamma (x : ℝ) : ℝ := Real.log |Real.Gamma x|

/-- C `log10`. -/
noncomputable def log10 (x : ℝ) : ℝ := Real.log x / Real.log 10

/-- C `pow` (used on a positive base in this file). -/
noncomputable def pow (x y : ℝ) : ℝ := x ^ y

/-- C conversion `(int) x` of a `double`: truncation toward zero. -/
noncomputable def toInt (x : ℝ) : ℤ := if 0 ≤ x then ⌊x⌋ else ⌈x⌉

/-! ## Log-domain arithmetic (`stats.c` lines 3-31) -/

/-- Function `max` of `stats.c`:
`static double max(double a, double b) { return a > b ? a : b; }`. -/
noncomputable def max (a b : ℝ) : ℝ := if a > b then a else b

/-- Function `ln_sum2` of `stats.c`. -/
noncomputable def ln_sum2 (ln1 ln2 : ℝ) : ℝ :=
  let I := max ln1 ln2
  Real.log (Real.exp (ln1 - I) + Real.exp (ln2 - I)) + I

/-- Function `ln_sum3` of `stats.c`. -/
noncomputable def ln_sum3 (ln1 ln2 ln3 : ℝ) : ℝ :=
  let I := max (max ln1 ln2) ln3
  Real.log (Real.exp (ln1 - I) + Real.exp (ln2 - I) + Real.exp (ln3 - I)) + I

/-- Function `ln_sum4` of `stats.c`. -/
noncomputable def ln_sum4 (ln1 ln2 ln3 ln4 : ℝ) : ℝ :=
  let I := max (max (max ln1 ln2) ln3) ln4
  Real.log (Real.exp (ln1 - I) + Real.exp (ln2 - I) + Real.exp (ln3 - I) + Real.exp (ln4 - I)) + I

/-- Function `ln_substract` of `stats.c`. -/
noncomputable def ln_substract (ln1 ln2 : ℝ) : ℝ :=
  let I := max ln1 ln2
  Real.log (Real.exp (ln1 - I) - Real.exp (ln2 - I)) + I

/-! ## Binomial survival function (`stats.c` lines 34-53) -/

/-- Function `binom_coeff` of `stats.c`. -/
noncomputable def binom_coeff (m n : ℤ) (p q : ℝ) : ℝ :=
  let logcoeff := lgamma (((m + n : ℤ) : ℝ) + 1)
  let logcoeff := logcoeff - (lgamma ((n : ℝ) + 1) + lgamma ((m : ℝ) + 1))
  let logcoeff := logcoeff + ((m : ℝ) * Real.log p + (n : ℝ) * Real.log q)
  Real.exp logcoeff

/-- The `for (i=0; i<s; i++) cdf -= binom_coeff(i, n-i, p, 1-p);` loop of
`binom_pval`, entered at counter `i` with accumulator `cdf`. -/
noncomputable def binom_pval_loop (s n : ℤ) (p : ℝ) (i : ℤ) (cdf : ℝ) : ℝ :=
  if i < s then binom_pval_loop s n p (i + 1) (cdf - binom_coeff i (n - i) p (1 - p))
  else cdf
termination_by (s - i).toNat
decreasing_by omega

/-- Function `binom_pval` of `stats.c`. -/
noncomputable def binom_pval (s n : ℤ) (p : ℝ) : ℝ :=
  binom_pval_loop s n p 0 1

/-! ## Continued fraction for the incomplete beta function (`stats.c` lines 61-134) -/

/-- The `for (m=1; m<=MAXIT; m++)` loop of `beta_cf` together with the test
`if (m > MAXIT) abort();` that follows it, entered at counter `m` with the
variables `c`, `d`, `h`.  Leaving the loop by `break` returns `h`; leaving it
because `m > MAXIT` aborts. -/
noncomputable def beta_cf_loop (a b x qab qap qam : ℝ) (m : ℕ) (c d h : ℝ) : Except Abort ℝ :=
  if m ≤ MAXIT then
    let m2 : ℕ := 2 * m
    let aa := (m : ℝ) * (b - (m : ℝ)) * x / ((qam + (m2 : ℝ)) * (a + (m2 : ℝ)))
    let d := 1 + aa * d
    let d := if fabs d < FPMIN then FPMIN else d
    let c := 1 + aa / c
    let c := if fabs c < FPMIN then FPMIN else c
    let d := 1 / d
    let h := h * (d * c)
    let aa := -(a + (m : ℝ)) * (qab + (m : ℝ)) * x / ((a + (m2 : ℝ)) * (qap + (m2 : ℝ)))
    let d := 1 + aa * d
    let d := if fabs d < FPMIN then FPMIN else d
    let c := 1 + aa / c
    let c := if fabs c < FPMIN then FPMIN else c
    let d := 1 / d
    let del := d * c
    let h := h * del
    if fabs (del - 1) < EPS then Except.ok h
    else beta_cf_loop a b x qab qap qam (m + 1) c d h
  else Except.error Abort.betacf_maxit
termination_by MAXIT + 1 - m
decreasing_by omega

/-- Function `beta_cf` of `stats.c` (modified Lentz method). -/
noncomputable def beta_cf (a b x : ℝ) : Except Abort ℝ :=
  let qab := a + b
  let qap := a + 1
  let qam := a - 1
  let c : ℝ := 1
  let d := 1 - qab * x / qap
  let d := if fabs d < FPMIN then FPMIN else d
  let d := 1 / d
  let h := d
  beta_cf_loop a b x qab qap qam 1 c d h

/-- Function `beta_inc` of `stats.c`. -/
noncomputable def beta_inc (a b x : ℝ) : Except Abort ℝ :=
  if x < 0 ∨ x > 1 then Except.error Abort.betai_bad_x
  else
    let bt : ℝ :=
      if x = 0 ∨ x = 1 then 0
      else Real.exp (lgamma (a + b) - lgamma a - lgamma b + a * Real.log x + b * Real.log (1 - x))
    if x < (a + 1) / (a + b + 2) then
      (beta_cf a b x).map (fun cf => bt * cf / a)
    else
      (beta_cf b a (1 - x)).map (fun cf => 1 - bt * cf / b)

/-- Function `ln_beta_inc` of `stats.c`. -/
noncomputable def ln_beta_inc (a b x : ℝ) : Except Abort ℝ :=
  if x ≤ 0 ∨ x ≥ 1 then Except.error Abort.ln_betai_bad_x
  else
    let bt : ℝ := a * Real.log x + b * Real.log (1 - x)
    if x < (a + 1) / (a + b + 2) then
      (beta_cf a b x).map (fun cf => bt + Real.log cf - Real.log a)
    else
      (beta_cf b a (1 - x)).map (fun cf =>
        ln_substract (lgamma a + lgamma b - lgamma (a + b)) (bt + Real.log (cf / b)))

/-- Macro `pv` of `stats.c`:
`#define pv(f) ((double)(f) * (1 - error) + (1 - (double)(f)) * error)`,
with the variable `error` it captures made a parameter. -/
noncomputable def pv (error f : ℝ) : ℝ := f * (1 - error) + (1 - f) * error

/-! ## Quality transform (`stats.c` lines 143-148) -/

/-- Function `pval2qual` of `stats.c`; `qual` is the `int` variable, converted
back to `double` on return. -/
noncomputable def pval2qual (pval : ℝ) : ℝ :=
  let qual : ℤ := toInt (-10 * log10 (max pval (pow 10 (-30))) + 0.499)
  if qual > 255 then 255 else (qual : ℝ)

/-! ## Kernel helpers (`stats.c` lines 228-253) -/

/-- Function `ln_binom_kernel` of `stats.c`; the bound `1-FPMIN` of the second clamp is
taken at its `double` value `one_minus_FPMIN`. -/
noncomputable def ln_binom_kernel (p : ℝ) (a b : ℤ) : ℝ :=
  let p := if p < FPMIN then FPMIN else p
  let p := if p > one_minus_FPMIN then one_minus_FPMIN else p
  Real.log p * (a : ℝ) + Real.log (1 - p) * (b : ℝ)

/-- The `return` statement of `ln_beta_incdiff_kernel`,
`log(1 - exp(ln_beta_inc(a,b,p1) - ln_beta_inc(a,b,p2))) + ln_beta_inc(a,b,p2)`,
on the current values of `p1`, `p2`, `a`, `b`. -/
noncomputable def ln_beta_incdiff_return (p1 p2 : ℝ) (a b : ℤ) : Except Abort ℝ := do
  let l1 ← ln_beta_inc (a : ℝ) (b : ℝ) p1
  let l2 ← ln_beta_inc (a : ℝ) (b : ℝ) p2
  let l3 ← ln_beta_inc (a : ℝ) (b : ℝ) p2
  pure (Real.log (1 - Real.exp (l1 - l2)) + l3)

/-- Function `ln_beta_incdiff_kernel` of `stats.c`: the symmetric swap of
`(p1, p2, a, b)` followed by the `return` statement. -/
noncomputable def ln_beta_incdiff_kernel (p1 p2 : ℝ) (a b : ℤ) : Except Abort ℝ :=
  if p1 > ((a : ℝ) + 1) / (((a + b : ℤ) : ℝ) + 2) ∧ p2 > ((a : ℝ) + 1) / (((a + b : ℤ) : ℝ) + 2) then
    ln_beta_incdiff_return (1 - p2) (1 - p1) b a
  else
    ln_beta_incdiff_return p1 p2 a b

/-! ## Likelihood and decision layers (`stats.c` lines 150-226, 255-319) -/

/-- Function `varcall_pval` of `stats.c`. -/
noncomputable def varcall_pval (kr kv : ℤ) (error mu contam : ℝ) : Except Abort ℝ :=
  if contam = 0 then do
    let U : ℝ := pow (pv error 0) (kv : ℝ) * pow (1 - pv error 0) (kr : ℝ) * (1 - mu)
    let b1 ← beta_inc ((kv + 1 : ℤ) : ℝ) ((kr + 1 : ℤ) : ℝ) (pv error 1)
    let b0 ← beta_inc ((kv + 1 : ℤ) : ℝ) ((kr + 1 : ℤ) : ℝ) (pv error 0)
    let V : ℝ := (b1 - b0) * mu
    pure (U / (U + V))
  else if contam ≥ 0 then do
    let bc ← beta_inc ((kv + 1 : ℤ) : ℝ) ((kr + 1 : ℤ) : ℝ) (pv error contam)
    let b0 ← beta_inc ((kv + 1 : ℤ) : ℝ) ((kr + 1 : ℤ) : ℝ) (pv error 0)
    let U : ℝ := (bc - b0) * (1 - mu)
    let b1 ← beta_inc ((kv + 1 : ℤ) : ℝ) ((kr + 1 : ℤ) : ℝ) (pv error 1)
    let b0' ← beta_inc ((kv + 1 : ℤ) : ℝ) ((kr + 1 : ℤ) : ℝ) (pv error 0)
    let V : ℝ := (b1 - b0') * mu * contam
    pure (U / (U + V))
  else Except.error Abort.negative_contam

/-- Function `ref_lnlik` of `stats.c`. -/
noncomputable def ref_lnlik (kr kv : ℤ) (error contam : ℝ) : Except Abort ℝ :=
  if contam = 0 then
    Except.ok (ln_binom_kernel (pv error 0) kv kr - Real.log (1 - 2 * error)
      + lgamma ((kr + kv + 1 : ℤ) : ℝ) - lgamma ((kv + 1 : ℤ) : ℝ) - lgamma ((kr + 1 : ℤ) : ℝ))
  else if contam > 0 then do
    let k ← ln_beta_incdiff_kernel (pv error 0) (pv error contam) (kv + 1) (kr + 1)
    pure (k - Real.log (1 - 2 * error)
      + lgamma ((kr + kv + 1 : ℤ) : ℝ) - lgamma ((kv + 1 : ℤ) : ℝ) - lgamma ((kr + 1 : ℤ) : ℝ)
      - Real.log contam)
  else Except.error Abort.negative_contam

/-- Function `alt_lnlik` of `stats.c`. -/
noncomputable def alt_lnlik (kr kv : ℤ) (error : ℝ) : Except Abort ℝ := do
  let k ← ln_beta_incdiff_kernel (pv error 0) (pv error 1) (kv + 1) (kr + 1)
  pure (k - Real.log (1 - 2 * error)
    + lgamma ((kr + kv + 1 : ℤ) : ℝ) - lgamma ((kv + 1 : ℤ) : ℝ) - lgamma ((kr + 1 : ℤ) : ℝ))

/-- Function `somatic_posterior` of `stats.c` (the `DEBUGSTATS` printing left out). -/
noncomputable def somatic_posterior (kr_t kv_t kr_n kv_n : ℤ)
    (error mu mu_somatic contam : ℝ) : Except Abort ℝ := do
  let r1 ← ref_lnlik kr_n kv_n error contam
  let r2 ← ref_lnlik kr_t kv_t error contam
  let prob_m00 : ℝ := r1 + r2
  let r3 ← ref_lnlik kr_n kv_n error contam
  let a1 ← alt_lnlik kr_t kv_t error
  let prob_m01 : ℝ := r3 + a1 + Real.log mu_somatic
  let a2 ← alt_lnlik kr_n kv_n error
  let r4 ← ref_lnlik kr_t kv_t error contam
  let prob_m10 : ℝ := a2 + r4 + Real.log mu_somatic
  let a3 ← alt_lnlik kr_n kv_n error
  let a4 ← alt_lnlik kr_t kv_t error
  let prob_m11 : ℝ := a3 + a4 + Real.log mu
  let prob_d : ℝ := ln_sum4 prob_m00 prob_m01 prob_m10 prob_m11
  pure (1 - Real.exp (prob_m01 - prob_d))

/-- Function `genotype_prior_HWE` of `stats.c`. -/
noncomputable def genotype_prior_HWE (genotype : Genotype) (allele_freq : ℝ) : ℝ :=
  if genotype = HOMOVAR then allele_freq * allele_freq
  else if genotype = HET then 2 * allele_freq * (1 - allele_freq)
  else 1 - 2 * allele_freq * (1 - allele_freq) - allele_freq * allele_freq

/-- Function `somatic_lnlik` of `stats.c`. -/
noncomputable def somatic_lnlik (kr kv : ℤ) (error : ℝ) : Except Abort ℝ := do
  let k ← ln_beta_incdiff_kernel (pv error 0) (pv error 1) (kv + 1) (kr + 1)
  pure (k - Real.log (1 - 2 * error)
    + lgamma ((kv + kr + 1 : ℤ) : ℝ) - lgamma ((kv + 1 : ℤ) : ℝ) - lgamma ((kr + 1 : ℤ) : ℝ))

/-- Function `inconsist_score` of `stats.c`. -/
noncomputable def inconsist_score (kr_tumor kv_tumor kr_normal kv_normal : ℤ)
    (mu error : ℝ) : Except Abort ℝ := do
  let kv : ℤ := kv_normal + kv_tumor
  let kr : ℤ := kr_normal + kr_tumor
  let coeff1 : ℝ := lgamma ((kv_tumor + kr_tumor + 1 : ℤ) : ℝ)
    - lgamma ((kv_tumor + 1 : ℤ) : ℝ) - lgamma ((kr_tumor + 1 : ℤ) : ℝ)
  let coeff2 : ℝ := lgamma ((kv_normal + kr_normal + 1 : ℤ) : ℝ)
    - lgamma ((kv_normal + 1 : ℤ) : ℝ) - lgamma ((kr_normal + 1 : ℤ) : ℝ)
  let k ← ln_beta_incdiff_kernel (pv error 0) (pv error 1) (kv + 1) (kr + 1)
  let consist_lnlik : ℝ := k - Real.log (1 - 2 * error) + coeff1 + coeff2
  let s1 ← somatic_lnlik kr_tumor kv_tumor error
  let s2 ← somatic_lnlik kr_normal kv_normal error
  let inconsist_lnlik : ℝ := ln_sum2 s1 s2
  pure (-consist_lnlik - Real.log (1 - mu)
    + ln_sum2 (consist_lnlik + Real.log (1 - mu)) (inconsist_lnlik + Real.log mu))

/-- Function `genotype_lnlik` of `stats.c`: the `switch` on the genotype tag,
then the multinomial log-coefficient. -/
noncomputable def genotype_lnlik (genotype : Genotype) (kr kv : ℤ)
    (error contam : ℝ) : Except Abort ℝ := do
  let lnlik : ℝ ←
    if genotype = HOMOREF then
      if contam = 0 then
        pure (ln_binom_kernel (pv error 0) kv kr)
      else if contam ≥ 0 then do
        let k ← ln_beta_incdiff_kernel (pv error 0) (pv error contam) (kv + 1) (kr + 1)
        pure (k - Real.log contam - Real.log (1 - 2 * error))
      else Except.error Abort.negative_contam
    else if genotype = HET then
      if contam = 0 then
        pure (ln_binom_kernel (pv error 0.5) kv kr)
      else if contam ≥ 0 then do
        let k ← ln_beta_incdiff_kernel (pv error (0.5 - contam)) (pv error (0.5 + contam))
          (kv + 1) (kr + 1)
        pure (k - Real.log (2 * contam) - Real.log (1 - 2 * error))
      else Except.error Abort.negative_contam
    else if genotype = HOMOVAR then
      if contam = 0 then
        pure (ln_binom_kernel (pv error 1) kv kr)
      else if contam ≥ 0 then do
        let k ← ln_beta_incdiff_kernel (pv error (1 - contam)) (pv error 1) (kv + 1) (kr + 1)
        pure (k - Real.log contam - Real.log (1 - 2 * error))
      else Except.error Abort.negative_contam
    else Except.error Abort.genotype_unrecognized
  pure (lnlik + lgamma ((kv + kr + 1 : ℤ) : ℝ) - lgamma ((kv + 1 : ℤ) : ℝ)
    - lgamma ((kr + 1 : ℤ) : ℝ))

/-! ## Shared lemmas -/

/-- Facts on the constants and on `max`: `FPMIN` and `EPS` are positive, `FPMIN` is below
`1/2`, a value at least `FPMIN` is not floored by the `fabs(d) < FPMIN` tests, `max` is an
upper bound of both arguments and monotone in the first, and clamping an error rate below
`0.5` from below by `FPMIN` keeps it below `1/2`. -/
theorem basic_facts :
    0 < FPMIN ∧ 0 < EPS ∧ FPMIN < 1 / 2
      ∧ (∀ d : ℝ, FPMIN ≤ d → ¬ fabs d < FPMIN)
      ∧ (∀ a b : ℝ, a ≤ max a b ∧ b ≤ max a b)
      ∧ (∀ p q c : ℝ, p ≤ q → max p c ≤ max q c)
      ∧ (∀ error : ℝ, error < 0.5 →
          FPMIN ≤ max error FPMIN ∧ max error FPMIN < 1 / 2
            ∧ (error < FPMIN → max error FPMIN = FPMIN)
            ∧ (¬ error < FPMIN → max error FPMIN = error)) := by
  have hF : 0 < FPMIN := by unfold FPMIN; positivity
  have hE : 0 < EPS := by unfold EPS; positivity
  have hFh : FPMIN < 1 / 2 := by unfold FPMIN; norm_num
  refine ⟨hF, hE, hFh, ?_, ?_, ?_, ?_⟩
  · intro d h
    unfold fabs
    rw [abs_of_nonneg (le_trans hF.le h)]
    exact not_lt.mpr h
  · intro a b
    unfold max
    split_ifs with h
    · exact ⟨le_refl a, h.le⟩
    · exact ⟨not_lt.mp h, le_refl b⟩
  · intro p q c h
    unfold max
    split_ifs with h1 h2 h2
    · exact h
    · exact absurd (lt_of_lt_of_le h1 h) h2
    · exact h2.le
    · exact le_rfl
  · intro error he1
    have he : error < 1 / 2 := by norm_num at he1; exact he1
    unfold max
    split_ifs with h
    · exact ⟨h.le, he, fun h' => absurd h (not_lt.mpr h'.le), fun _ => rfl⟩
    · exact ⟨le_rfl, hFh, fun _ => rfl, fun h' => le_antisymm (not_lt.mp h') (not_lt.mp h)⟩

/-- Values of the continued fraction that are reached exactly: at `x = 0` the loop leaves
in its first iteration with `h = 1`; at `b = 1` it leaves in its first iteration with
`h = 1/(1-x)`; at `a = 1`, `b = 101`, `x = 1/1000` it leaves in its second iteration. -/
theorem beta_cf_values :
    (∀ a b : ℝ, beta_cf a b 0 = Except.ok 1)
      ∧ (∀ a x : ℝ, 0 < a → 0 ≤ x → FPMIN ≤ 1 - x → beta_cf a 1 x = Except.ok (1 / (1 - x)))
      ∧ beta_cf 1 101 (1 / 1000) = Except.ok (2497925500 / 2372655237) := by
  obtain ⟨hF, hE, hFh, hfabs, -, -, -⟩ := basic_facts
  have h1 : ¬ fabs (1 : ℝ) < FPMIN := hfabs 1 (by linarith)
  have h2 : fabs (0 : ℝ) < EPS := by unfold fabs; simpa using hE
  refine ⟨?_, ?_, ?_⟩
  · intro a b
    unfold beta_cf
    rw [beta_cf_loop]
    simp [MAXIT, h1, h2]
  · intro a x ha hx0 hx1
    have hd0 : (a + 1) * x / (a + 1) = x := by field_simp
    have haa1 : (a + 1) * (a + 1 + 1) * x / ((a + 2) * (a + 1 + 2)) ≤ x := by
      rw [div_le_iff₀ (by positivity)]
      nlinarith [mul_nonneg hx0 ha.le, mul_nonneg hx0 (mul_nonneg ha.le ha.le)]
    have hd2 : FPMIN ≤ 1 + -(a + 1) * (a + 1 + 1) * x / ((a + 2) * (a + 1 + 2)) := by
      have : -(a + 1) * (a + 1 + 1) * x / ((a + 2) * (a + 1 + 2))
          = -((a + 1) * (a + 1 + 1) * x / ((a + 2) * (a + 1 + 2))) := by ring
      rw [this]; linarith
    have h3 := hfabs _ hx1
    have h4 := hfabs _ hd2
    have hne : 1 + -(a + 1) * (a + 1 + 1) * x / ((a + 2) * (a + 1 + 2)) ≠ 0 :=
      (lt_of_lt_of_le hF hd2).ne'
    unfold beta_cf
    rw [beta_cf_loop]
    simp only [MAXIT, hd0, h3, if_false, Nat.cast_one, sub_self, mul_zero, zero_mul, zero_div,
      add_zero, h1, div_one, mul_one, Nat.cast_ofNat, Nat.one_le_ofNat, if_true, one_div, h4,
      inv_mul_cancel₀ hne, h2]
  · unfold beta_cf
    rw [beta_cf_loop]
    norm_num [fabs, FPMIN, EPS, MAXIT, abs_lt]
    rw [beta_cf_loop]
    norm_num [fabs, FPMIN, EPS, MAXIT, abs_lt]

/-- Log-domain identities over the reals: the max-shift of `ln_sum2`, `ln_sum4` and
`ln_substract` cancels; `ln_sum4` is at least its second argument; the return expression
of `ln_beta_incdiff_kernel` is an `ln_substract`; and the expression of `inconsist_score`
is a negative log posterior, hence non-negative. -/
theorem log_domain_facts :
    (∀ x y : ℝ, ln_sum2 x y = Real.log (Real.exp x + Real.exp y))
      ∧ (∀ x1 x2 x3 x4 : ℝ, x2 ≤ ln_sum4 x1 x2 x3 x4)
      ∧ (∀ x y : ℝ, y < x → ln_substract x y = Real.log (Real.exp x - Real.exp y))
      ∧ (∀ l1 l2 : ℝ, ln_substract l2 l1 = Real.log (1 - Real.exp (l1 - l2)) + l2)
      ∧ (∀ C I mu : ℝ, 0 < mu → mu < 1 →
          -C - Real.log (1 - mu) + ln_sum2 (C + Real.log (1 - mu)) (I + Real.log mu)
              = -Real.log (Real.exp C * (1 - mu) / (Real.exp C * (1 - mu) + Real.exp I * mu))
            ∧ 0 ≤ -Real.log
                (Real.exp C * (1 - mu) / (Real.exp C * (1 - mu) + Real.exp I * mu)))
      ∧ (∀ (c x y : ℝ) (m n : ℕ), 0 < c → 0 < x → 0 < y →
          Real.exp (Real.log c + (m : ℝ) * Real.log x + (n : ℝ) * Real.log y)
            = c * x ^ m * y ^ n) := by
  have shift : ∀ s I : ℝ, 0 < s → Real.log (s * Real.exp (-I)) + I = Real.log s := by
    intro s I hs
    rw [Real.log_mul hs.ne' (Real.exp_pos _).ne', Real.log_exp]
    ring
  have sum2 : ∀ x y : ℝ, ln_sum2 x y = Real.log (Real.exp x + Real.exp y) := by
    intro x y
    have h := shift (Real.exp x + Real.exp y) (max x y)
      (add_pos (Real.exp_pos _) (Real.exp_pos _))
    unfold ln_sum2
    dsimp only
    rw [← h, add_mul, ← Real.exp_add, ← Real.exp_add, sub_eq_add_neg, sub_eq_add_neg]
  refine ⟨sum2, ?_, ?_, ?_, ?_, ?_⟩
  · intro x1 x2 x3 x4
    have h1 := Real.exp_pos x1
    have h2 := Real.exp_pos x2
    have h3 := Real.exp_pos x3
    have h4 := Real.exp_pos x4
    have h := shift (Real.exp x1 + Real.exp x2 + Real.exp x3 + Real.exp x4)
      (max (max (max x1 x2) x3) x4) (by linarith)
    have e : ln_sum4 x1 x2 x3 x4
        = Real.log (Real.exp x1 + Real.exp x2 + Real.exp x3 + Real.exp x4) := by
      unfold ln_sum4
      dsimp only
      rw [← h, add_mul, add_mul, add_mul, ← Real.exp_add, ← Real.exp_add, ← Real.exp_add,
        ← Real.exp_add, sub_eq_add_neg, sub_eq_add_neg, sub_eq_add_neg, sub_eq_add_neg]
    rw [e]
    calc x2 = Real.log (Real.exp x2) := (Real.log_exp x2).symm
      _ ≤ Real.log (Real.exp x1 + Real.exp x2 + Real.exp x3 + Real.exp x4) :=
          Real.log_le_log h2 (by linarith)
  · intro x y hxy
    have hpos : 0 < Real.exp x - Real.exp y := sub_pos.mpr (Real.exp_lt_exp.mpr hxy)
    have h := shift (Real.exp x - Real.exp y) (max x y) hpos
    unfold ln_substract
    dsimp only
    rw [← h, sub_mul, ← Real.exp_add, ← Real.exp_add, sub_eq_add_neg x, sub_eq_add_neg y]
  · intro l1 l2
    unfold ln_substract max
    by_cases h : l2 > l1
    · simp only [if_pos h, sub_self, Real.exp_zero]
    · simp only [if_neg h, sub_self, Real.exp_zero]
      rcases eq_or_lt_of_le (not_lt.mp h) with heq | hlt
      · rw [heq]
        simp
      · have hpos : 0 < 1 - Real.exp (l2 - l1) := by
          rw [sub_pos, Real.exp_lt_one_iff]
          linarith
        have e1 : Real.exp (l2 - l1) - 1 = -(1 - Real.exp (l2 - l1)) := by ring
        have e2 : 1 - Real.exp (l1 - l2)
            = -(Real.exp (l1 - l2) * (1 - Real.exp (l2 - l1))) := by
          have : Real.exp (l1 - l2) * Real.exp (l2 - l1) = 1 := by
            rw [← Real.exp_add]; simp
          linear_combination (-1 : ℝ) * this
        rw [e1, e2, Real.log_neg_eq_log, Real.log_neg_eq_log,
          Real.log_mul (Real.exp_pos _).ne' hpos.ne', Real.log_exp]
        ring
  · intro C I mu h0 h1
    have hm : 0 < 1 - mu := by linarith
    have hN : 0 < Real.exp C * (1 - mu) := mul_pos (Real.exp_pos _) hm
    have hI : 0 < Real.exp I * mu := mul_pos (Real.exp_pos _) h0
    have hD : 0 < Real.exp C * (1 - mu) + Real.exp I * mu := add_pos hN hI
    constructor
    · rw [sum2, Real.exp_add, Real.exp_add, Real.exp_log hm, Real.exp_log h0,
        Real.log_div hN.ne' hD.ne', Real.log_mul (Real.exp_pos _).ne' hm.ne', Real.log_exp]
      ring
    · rw [neg_nonneg]
      apply Real.log_nonpos (div_pos hN hD).le
      rw [div_le_one hD]
      linarith
  · intro c x y m n hc hx hy
    rw [Real.exp_add, Real.exp_add, Real.exp_log hc, Real.exp_nat_mul, Real.exp_nat_mul,
      Real.exp_log hx, Real.exp_log hy]

/-! ## C1, C2: log-domain sum and difference -/

/-- C1: over the reals `ln_sum2 (ln a) (ln b) = ln (a + b)` for positive `a`, `b`;
equivalently `ln_sum2 x y = ln (e^x + e^y)` for all real `x`, `y`; and `ln_sum2` is
symmetric in its two arguments. -/
theorem ln_sum2_spec (a b x y : ℝ) (ha : 0 < a) (hb : 0 < b) :
    ln_sum2 (Real.log a) (Real.log b) = Real.log (a + b)
      ∧ ln_sum2 x y = Real.log (Real.exp x + Real.exp y)
      ∧ ln_sum2 x y = ln_sum2 y x := by
  have sum2 := log_domain_facts.1
  refine ⟨?_, sum2 x y, ?_⟩
  · rw [sum2, Real.exp_log ha, Real.exp_log hb]
  · rw [sum2, sum2, add_comm]

/-- Witness of C1 at `a = 1`, `b = 2`, `x = 0`, `y = 3`. -/
theorem ln_sum2_spec_witness :
    ln_sum2 (Real.log 1) (Real.log 2) = Real.log (1 + 2)
      ∧ ln_sum2 0 3 = Real.log (Real.exp 0 + Real.exp 3)
      ∧ ln_sum2 0 3 = ln_sum2 3 0 :=
  ln_sum2_spec 1 2 0 3 one_pos two_pos

/-- C2: over the reals `ln_substract x y = ln (e^x − e^y)` whenever `x > y`; that is,
`ln_substract (ln a) (ln b) = ln (a − b)` whenever `a > b > 0`. -/
theorem ln_substract_spec (a b x y : ℝ) (hxy : x > y) (hb : 0 < b) (hab : a > b) :
    ln_substract x y = Real.log (Real.exp x - Real.exp y)
      ∧ ln_substract (Real.log a) (Real.log b) = Real.log (a - b) := by
  have sub := log_domain_facts.2.2.1
  have ha : 0 < a := lt_trans hb hab
  refine ⟨sub x y hxy, ?_⟩
  rw [sub _ _ (Real.log_lt_log hb hab), Real.exp_log ha, Real.exp_log hb]

/-- Witness of C2 at `x = 1`, `y = 0`, `a = 3`, `b = 2`. -/
theorem ln_substract_spec_witness :
    ln_substract 1 0 = Real.log (Real.exp 1 - Real.exp 0)
      ∧ ln_substract (Real.log 3) (Real.log 2) = Real.log (3 - 2) :=
  ln_substract_spec 3 2 1 0 one_pos two_pos (by norm_num)

/-- Facts on `lgamma` at positive arguments: `lgamma (n+1) = ln n!`, the functional
equation `lgamma (x+1) = ln x + lgamma x`, and the multinomial log-coefficient
`lgamma (kr+kv+1) − lgamma (kv+1) − lgamma (kr+1) = ln C(kr+kv, kv)`. -/
theorem lgamma_facts :
    (∀ n : ℕ, lgamma ((n : ℝ) + 1) = Real.log (n.factorial : ℝ))
      ∧ lgamma 1 = 0 ∧ lgamma 2 = 0 ∧ lgamma 3 = Real.log 2
      ∧ lgamma 102 = Real.log 101 + lgamma 101
      ∧ (∀ x : ℝ, 0 < x → lgamma (x + 1) = Real.log x + lgamma x)
      ∧ (∀ n k : ℕ,
          lgamma (((n + k : ℕ) : ℝ) + 1) - lgamma ((k : ℝ) + 1) - lgamma ((n : ℝ) + 1)
            = Real.log (((n + k).choose k : ℕ) : ℝ))
      ∧ (∀ kr kv : ℤ, 0 ≤ kr → 0 ≤ kv →
          lgamma ((kv + kr + 1 : ℤ) : ℝ) - lgamma ((kv + 1 : ℤ) : ℝ)
              - lgamma ((kr + 1 : ℤ) : ℝ)
            = Real.log (((kr + kv).toNat.choose kv.toNat : ℕ) : ℝ)) := by
  have hsucc : ∀ n : ℕ, lgamma ((n : ℝ) + 1) = Real.log (n.factorial : ℝ) := by
    intro n
    unfold lgamma
    rw [Real.Gamma_nat_eq_factorial, abs_of_nonneg (Nat.cast_nonneg _)]
  have hadd : ∀ x : ℝ, 0 < x → lgamma (x + 1) = Real.log x + lgamma x := by
    intro x hx
    unfold lgamma
    rw [Real.Gamma_add_one hx.ne', abs_mul, abs_of_pos hx,
      Real.log_mul hx.ne' (abs_pos.mpr (Real.Gamma_pos_of_pos hx).ne').ne']
  have hchoose : ∀ n k : ℕ,
      lgamma (((n + k : ℕ) : ℝ) + 1) - lgamma ((k : ℝ) + 1) - lgamma ((n : ℝ) + 1)
        = Real.log (((n + k).choose k : ℕ) : ℝ) := by
    intro n k
    rw [hsucc, hsucc, hsucc]
    have hc : (0 : ℝ) < ((n + k).choose k : ℕ) :=
      Nat.cast_pos.mpr (Nat.choose_pos (Nat.le_add_left k n))
    have hk : (0 : ℝ) < (k.factorial : ℝ) := Nat.cast_pos.mpr k.factorial_pos
    have hn : (0 : ℝ) < (n.factorial : ℝ) := Nat.cast_pos.mpr n.factorial_pos
    have e : ((n + k).factorial : ℝ)
        = (((n + k).choose k : ℕ) : ℝ) * (k.factorial : ℝ) * (n.factorial : ℝ) := by
      have h := Nat.add_choose_mul_factorial_mul_factorial n k
      rw [mul_right_comm] at h
      exact_mod_cast h.symm
    rw [e, Real.log_mul (mul_pos hc hk).ne' hn.ne', Real.log_mul hc.ne' hk.ne']
    ring
  refine ⟨hsucc, ?_, ?_, ?_, ?_, hadd, hchoose, ?_⟩
  · have h := hsucc 0
    simpa using h
  · have h := hsucc 1
    norm_num at h
    simpa using h
  · have h := hsucc 2
    norm_num at h
    simpa using h
  · have h := hadd 101 (by norm_num)
    have e : (101 : ℝ) + 1 = 102 := by norm_num
    rw [e] at h
    exact h
  · intro kr kv hkr hkv
    obtain ⟨n, rfl⟩ := Int.eq_ofNat_of_zero_le hkr
    obtain ⟨k, rfl⟩ := Int.eq_ofNat_of_zero_le hkv
    have h := hchoose n k
    have e1 : (((k : ℤ) + (n : ℤ) + 1 : ℤ) : ℝ) = ((n + k : ℕ) : ℝ) + 1 := by push_cast; ring
    have e2 : (((k : ℤ) + 1 : ℤ) : ℝ) = (k : ℝ) + 1 := by push_cast; ring
    have e3 : (((n : ℤ) + 1 : ℤ) : ℝ) = (n : ℝ) + 1 := by push_cast; ring
    have e4 : ((n : ℤ) + (k : ℤ)).toNat = n + k := by
      rw [← Nat.cast_add, Int.toNat_natCast]
    rw [e1, e2, e3, e4, Int.toNat_natCast, h]

/-- Values of `beta_inc` and `ln_beta_inc` that are reached exactly: the boundary points
`x = 0` and `x = 1`, the point `(2, 1, 1/2)`, and the four evaluations behind
`varcall_pval` at `error = 1/1000` with 100 reads. -/
theorem beta_inc_values :
    (∀ a b : ℝ, 0 < a → 0 < b →
        beta_inc a b 0 = Except.ok 0 ∧ beta_inc a b 1 = Except.ok 1)
      ∧ beta_inc 2 1 (1 / 2) = Except.ok (1 / 4)
      ∧ ln_beta_inc 2 1 (1 / 2) = Except.ok (Real.log (1 / 8))
      ∧ beta_inc 1 101 (999 / 1000)
          = Except.ok (1 - 101 * (999 / 1000) ^ 1 * (1 - 999 / 1000) ^ 101
              * (1 / (1 - (1 - 999 / 1000))) / 101)
      ∧ beta_inc 1 101 (1 / 1000)
          = Except.ok (101 * (1 / 1000) ^ 1 * (1 - 1 / 1000) ^ 101
              * (2497925500 / 2372655237) / 1)
      ∧ beta_inc 101 1 (999 / 1000)
          = Except.ok (1 - 101 * (999 / 1000) ^ 101 * (1 - 999 / 1000) ^ 1
              * (2497925500 / 2372655237) / 1)
      ∧ beta_inc 101 1 (1 / 1000)
          = Except.ok (101 * (1 / 1000) ^ 101 * (1 - 1 / 1000) ^ 1
              * (1 / (1 - 1 / 1000)) / 101) := by
  obtain ⟨cf0, cf1, cf101⟩ := beta_cf_values
  obtain ⟨-, lg1, lg2, lg3, lg102, -, -, -⟩ := lgamma_facts
  have combo := log_domain_facts.2.2.2.2.2
  have pre1 : ∀ x : ℝ, 0 < x → x < 1 →
      Real.exp (lgamma (1 + 101) - lgamma 1 - lgamma 101 + 1 * Real.log x
          + 101 * Real.log (1 - x)) = 101 * x ^ 1 * (1 - x) ^ 101 := by
    intro x hx0 hx1
    have e : (1 : ℝ) + 101 = 102 := by norm_num
    have h := combo 101 x (1 - x) 1 101 (by norm_num) hx0 (by linarith)
    rw [← h, e, lg102, lg1]
    congr 1
    push_cast
    ring
  have pre2 : ∀ x : ℝ, 0 < x → x < 1 →
      Real.exp (lgamma (101 + 1) - lgamma 101 - lgamma 1 + 101 * Real.log x
          + 1 * Real.log (1 - x)) = 101 * x ^ 101 * (1 - x) ^ 1 := by
    intro x hx0 hx1
    have e : (101 : ℝ) + 1 = 102 := by norm_num
    have h := combo 101 x (1 - x) 101 1 (by norm_num) hx0 (by linarith)
    rw [← h, e, lg102, lg1]
    congr 1
    push_cast
    ring
  have hxl : ¬ ((1 / 1000 : ℝ) < 0 ∨ (1 / 1000 : ℝ) > 1) := by norm_num
  have hxl' : ¬ ((1 / 1000 : ℝ) = 0 ∨ (1 / 1000 : ℝ) = 1) := by norm_num
  have hxh : ¬ ((999 / 1000 : ℝ) < 0 ∨ (999 / 1000 : ℝ) > 1) := by norm_num
  have hxh' : ¬ ((999 / 1000 : ℝ) = 0 ∨ (999 / 1000 : ℝ) = 1) := by norm_num
  have hsub : (1 : ℝ) - 999 / 1000 = 1 / 1000 := by norm_num
  have hF1000 : FPMIN ≤ 1 - 1 / 1000 := by unfold FPMIN; norm_num
  have hcfh : beta_cf 1 101 (1 - 999 / 1000) = Except.ok (2497925500 / 2372655237) := by
    rw [hsub]; exact cf101
  have hcfl := cf1 101 (1 / 1000) (by norm_num) (by norm_num) hF1000
  have hcfl' : beta_cf 101 1 (1 - 999 / 1000) = Except.ok (1 / (1 - (1 - 999 / 1000))) :=
    cf1 101 (1 - 999 / 1000) (by norm_num) (by norm_num) (by unfold FPMIN; norm_num)
  have hcf2 : beta_cf 2 1 (1 / 2) = Except.ok (1 / (1 - 1 / 2)) :=
    cf1 2 (1 / 2) two_pos (by norm_num) (by unfold FPMIN; norm_num)
  refine ⟨?_, ?_, ?_, ?_, ?_, ?_, ?_⟩
  · intro a b ha hb
    constructor
    · have hthr : (0 : ℝ) < (a + 1) / (a + b + 2) := by positivity
      have hx : ¬ ((0 : ℝ) < 0 ∨ (0 : ℝ) > 1) := by norm_num
      unfold beta_inc
      simp only [hx, if_false, hthr, if_true, cf0, Except.map, true_or, zero_mul, zero_div]
    · have hthr : ¬ (1 : ℝ) < (a + 1) / (a + b + 2) := by
        rw [not_lt, div_le_one (by positivity)]
        linarith
      have hx : ¬ ((1 : ℝ) < 0 ∨ (1 : ℝ) > 1) := by norm_num
      unfold beta_inc
      simp only [hx, if_false, hthr, sub_self, cf0, Except.map, or_true, if_true, zero_mul,
        zero_div, sub_zero]
  · have hx : ¬ ((1 / 2 : ℝ) < 0 ∨ (1 / 2 : ℝ) > 1) := by norm_num
    have hx' : ¬ ((1 / 2 : ℝ) = 0 ∨ (1 / 2 : ℝ) = 1) := by norm_num
    have hthr : (1 / 2 : ℝ) < (2 + 1) / (2 + 1 + 2) := by norm_num
    have h3 : (2 : ℝ) + 1 = 3 := by norm_num
    have hbt : Real.exp (Real.log 2 - 0 - 0 + 2 * Real.log (1 / 2) + 1 * Real.log (1 - 1 / 2))
        = 1 / 4 := by
      have e : Real.log 2 - 0 - 0 + 2 * Real.log (1 / 2) + 1 * Real.log (1 - 1 / 2)
          = Real.log (1 / 4) := by
        have h12 : (1 : ℝ) - 1 / 2 = 1 / 2 := by norm_num
        have h14 : (1 / 4 : ℝ) = 2 * (1 / 2) ^ 3 := by norm_num
        rw [h12, h14, Real.log_mul (by norm_num) (by norm_num), Real.log_pow]
        push_cast
        ring
      rw [e, Real.exp_log (by norm_num)]
    unfold beta_inc
    simp only [hx, hx', if_false, hthr, if_true, hcf2, Except.map, h3, lg3, lg2, lg1, hbt]
    norm_num
  · have hx : ¬ ((1 / 2 : ℝ) ≤ 0 ∨ (1 / 2 : ℝ) ≥ 1) := by norm_num
    have hthr : (1 / 2 : ℝ) < (2 + 1) / (2 + 1 + 2) := by norm_num
    have e : 2 * Real.log (1 / 2) + 1 * Real.log (1 - 1 / 2) + Real.log (1 / (1 - 1 / 2))
        - Real.log 2 = Real.log (1 / 8) := by
      have h12 : (1 : ℝ) - 1 / 2 = 1 / 2 := by norm_num
      have h2 : (1 : ℝ) / (1 / 2) = 2 := by norm_num
      have h18 : (1 / 8 : ℝ) = (1 / 2) ^ 3 := by norm_num
      rw [h12, h2, h18, Real.log_pow]
      push_cast
      ring
    unfold ln_beta_inc
    simp only [hx, if_false, hthr, if_true, hcf2, Except.map, e]
  · have hthr : ¬ (999 / 1000 : ℝ) < (1 + 1) / (1 + 101 + 2) := by norm_num
    unfold beta_inc
    simp only [hxh, hxh', if_false, hthr, hcfl', Except.map,
      pre1 (999 / 1000) (by norm_num) (by norm_num)]
  · have hthr : (1 / 1000 : ℝ) < (1 + 1) / (1 + 101 + 2) := by norm_num
    unfold beta_inc
    simp only [hxl, hxl', if_false, hthr, if_true, cf101, Except.map,
      pre1 (1 / 1000) (by norm_num) (by norm_num)]
  · have hthr : ¬ (999 / 1000 : ℝ) < (101 + 1) / (101 + 1 + 2) := by norm_num
    unfold beta_inc
    simp only [hxh, hxh', if_false, hthr, hcfh, Except.map,
      pre2 (999 / 1000) (by norm_num) (by norm_num)]
  · have hthr : (1 / 1000 : ℝ) < (101 + 1) / (101 + 1 + 2) := by norm_num
    unfold beta_inc
    simp only [hxl, hxl', if_false, hthr, if_true, hcfl, Except.map,
      pre2 (1 / 1000) (by norm_num) (by norm_num)]

/-! ## C3: the log-space and direct incomplete-beta evaluators -/

/-- C3 as stated fails: at `a = 2`, `b = 1`, `x = 1/2` (where `beta_cf` returns in its
first iteration) `beta_inc` returns `1/4` and `ln_beta_inc` returns `ln (1/8)`, so the
two differ by a relative error of `1/2`, not `1e-6`. -/
theorem ln_beta_inc_not_log_of_beta_inc :
    ¬ (∀ a b x v w : ℝ, 0 < a → 0 < b → 0 < x → x < 1 →
        beta_inc a b x = Except.ok v → ln_beta_inc a b x = Except.ok w →
        |Real.exp w - v| ≤ 1 / 10 ^ 6 * |v|) := by
  intro h
  have h1 := h 2 1 (1 / 2) (1 / 4) (Real.log (1 / 8)) two_pos one_pos (by norm_num)
    (by norm_num) beta_inc_values.2.1 beta_inc_values.2.2.1
  rw [Real.exp_log (by norm_num)] at h1
  norm_num [abs_of_nonneg, abs_of_nonpos] at h1

/-- C3, amended: for `a > 0`, `b > 0`, `x` in `(0,1)` on which `beta_inc` returns `v` with
`0 < v < 1` and `ln_beta_inc` returns `w`, `exp w` is `v` times the complete beta function
`exp (lgamma a + lgamma b - lgamma (a+b))`: `ln_beta_inc` is the logarithm of the
incomplete beta function that is not regularized. -/
theorem exp_ln_beta_inc_eq (a b x v w : ℝ) (ha : 0 < a) (hb : 0 < b) (hx0 : 0 < x)
    (hx1 : x < 1) (hv : beta_inc a b x = Except.ok v) (hw : ln_beta_inc a b x = Except.ok w)
    (hv0 : 0 < v) (hv1 : v < 1) :
    Real.exp w = Real.exp (lgamma a + lgamma b - lgamma (a + b)) * v := by
  have hxa : ¬ (x < 0 ∨ x > 1) := by
    rintro (h | h) <;> linarith
  have hxb : ¬ (x = 0 ∨ x = 1) := by
    rintro (h | h) <;> linarith
  have hxc : ¬ (x ≤ 0 ∨ x ≥ 1) := by
    rintro (h | h) <;> linarith
  unfold beta_inc at hv
  unfold ln_beta_inc at hw
  simp only [hxa, hxb, if_false] at hv
  simp only [hxc, if_false] at hw
  by_cases hbr : x < (a + 1) / (a + b + 2)
  · simp only [hbr, if_true] at hv hw
    cases hcf : beta_cf a b x with
    | error e => simp [hcf, Except.map] at hv
    | ok cf =>
      simp only [hcf, Except.map, Except.ok.injEq] at hv hw
      set L := lgamma a + lgamma b - lgamma (a + b) with hL
      set t := a * Real.log x + b * Real.log (1 - x) with ht
      have e : lgamma (a + b) - lgamma a - lgamma b + a * Real.log x + b * Real.log (1 - x)
          = -L + t := by rw [hL, ht]; ring
      rw [e, Real.exp_add, Real.exp_neg] at hv
      have hLpos : 0 < Real.exp L := Real.exp_pos _
      have htpos : 0 < Real.exp t := Real.exp_pos _
      have hcfpos : 0 < cf := by
        by_contra hneg
        have hle : cf ≤ 0 := not_lt.mp hneg
        have : (Real.exp L)⁻¹ * Real.exp t * cf / a ≤ 0 :=
          div_nonpos_of_nonpos_of_nonneg
            (mul_nonpos_of_nonneg_of_nonpos (mul_pos (inv_pos.mpr hLpos) htpos).le hle) ha.le
        linarith
      rw [← hw, ← hv, Real.exp_sub, Real.exp_add, Real.exp_log hcfpos, Real.exp_log ha]
      field_simp
      ring
  · simp only [hbr, if_false] at hv hw
    cases hcf : beta_cf b a (1 - x) with
    | error e => simp [hcf, Except.map] at hv
    | ok cf =>
      simp only [hcf, Except.map, Except.ok.injEq] at hv hw
      set L := lgamma a + lgamma b - lgamma (a + b) with hL
      set t := a * Real.log x + b * Real.log (1 - x) with ht
      have e : lgamma (a + b) - lgamma a - lgamma b + a * Real.log x + b * Real.log (1 - x)
          = -L + t := by rw [hL, ht]; ring
      rw [e, Real.exp_add, Real.exp_neg] at hv
      have hLpos : 0 < Real.exp L := Real.exp_pos _
      have htpos : 0 < Real.exp t := Real.exp_pos _
      have hq : 0 < (Real.exp L)⁻¹ * Real.exp t * cf / b := by linarith
      have hcfpos : 0 < cf := by
        by_contra hneg
        have hle : cf ≤ 0 := not_lt.mp hneg
        have : (Real.exp L)⁻¹ * Real.exp t * cf / b ≤ 0 :=
          div_nonpos_of_nonpos_of_nonneg
            (mul_nonpos_of_nonneg_of_nonpos (mul_pos (inv_pos.mpr hLpos) htpos).le hle) hb.le
        linarith
      have hexp2 : Real.exp (t + Real.log (cf / b)) = Real.exp t * cf / b := by
        rw [Real.exp_add, Real.exp_log (div_pos hcfpos hb)]
        ring
      have hq1 : (Real.exp L)⁻¹ * Real.exp t * cf / b < 1 := by linarith
      have hlt : Real.exp (t + Real.log (cf / b)) < Real.exp L := by
        rw [hexp2]
        have h2 : (Real.exp L)⁻¹ * Real.exp t * cf / b
            = (Real.exp t * cf / b) / Real.exp L := by
          field_simp
          ring
        rw [h2, div_lt_one hLpos] at hq1
        exact hq1
      have hord : t + Real.log (cf / b) < L := Real.exp_lt_exp.mp hlt
      rw [← hw, log_domain_facts.2.2.1 _ _ hord, Real.exp_log (sub_pos.mpr hlt), hexp2, ← hv]
      field_simp
      ring

/-- Witness of the amended C3 at `a = 2`, `b = 1`, `x = 1/2`, where `beta_inc` returns `1/4`
and `ln_beta_inc` returns `ln (1/8)`. -/
theorem exp_ln_beta_inc_eq_witness :
    Real.exp (Real.log (1 / 8))
      = Real.exp (lgamma 2 + lgamma 1 - lgamma (2 + 1)) * (1 / 4) :=
  exp_ln_beta_inc_eq 2 1 (1 / 2) (1 / 4) (Real.log (1 / 8)) two_pos one_pos (by norm_num)
    (by norm_num) beta_inc_values.2.1 beta_inc_values.2.2.1 (by norm_num) (by norm_num)

/-! ## C4: boundary values of `beta_inc` -/

/-- C4 as stated fails: `beta_inc 1 1 1` returns `1`, not `0`. -/
theorem beta_inc_at_one_not_zero :
    beta_inc 1 1 1 = Except.ok 1
      ∧ ¬ (∀ a b : ℝ, 0 < a → 0 < b →
            beta_inc a b 0 = Except.ok 0 ∧ beta_inc a b 1 = Except.ok 0) := by
  have hone := (beta_inc_values.1 1 1 one_pos one_pos).2
  refine ⟨hone, fun h => ?_⟩
  have h1 := (h 1 1 one_pos one_pos).2
  rw [hone] at h1
  simp at h1

/-- C4, amended: for `a > 0` and `b > 0`, `beta_inc a b 0` returns exactly `0` and
`beta_inc a b 1` returns exactly `1`. -/
theorem beta_inc_boundary (a b : ℝ) (ha : 0 < a) (hb : 0 < b) :
    beta_inc a b 0 = Except.ok 0 ∧ beta_inc a b 1 = Except.ok 1 :=
  beta_inc_values.1 a b ha hb

/-- Witness of the amended C4 at `a = 2`, `b = 3`. -/
theorem beta_inc_boundary_witness :
    beta_inc 2 3 0 = Except.ok 0 ∧ beta_inc 2 3 1 = Except.ok 1 :=
  beta_inc_boundary 2 3 two_pos three_pos

/-! ## C5: `somatic_posterior` is a probability -/

/-- With no reads at a site and an error rate in `[FPMIN, 1 − FPMIN]`, every
continued fraction has `b = 1` and leaves its loop at once, so the whole call chain
returns: `ln_beta_inc 1 1 x`, the kernel on `(pv(0), pv(1))`, `alt_lnlik`,
`somatic_posterior` and `inconsist_score`. -/
theorem zero_counts_return :
    (∀ x : ℝ, FPMIN ≤ x → FPMIN ≤ 1 - x → ∃ w, ln_beta_inc 1 1 x = Except.ok w)
      ∧ (∀ error mu mu_somatic : ℝ, FPMIN ≤ error → FPMIN ≤ 1 - error →
          (∃ v, somatic_posterior 0 0 0 0 error mu mu_somatic 0 = Except.ok v)
            ∧ (∃ v, inconsist_score 0 0 0 0 mu error = Except.ok v)) := by
  obtain ⟨hF, -, -, -, -, -, -⟩ := basic_facts
  obtain ⟨-, cf1, -⟩ := beta_cf_values
  have hinc : ∀ x : ℝ, FPMIN ≤ x → FPMIN ≤ 1 - x → ∃ w, ln_beta_inc 1 1 x = Except.ok w := by
    intro x hx0 hx1
    have hx : ¬ (x ≤ 0 ∨ x ≥ 1) := by
      rintro (h | h) <;> linarith
    by_cases hbr : x < (1 + 1) / (1 + 1 + 2)
    · have hcf := cf1 1 x one_pos (by linarith) hx1
      unfold ln_beta_inc
      simp only [hx, if_false, hbr, if_true, hcf, Except.map]
      exact ⟨_, rfl⟩
    · have hcf := cf1 1 (1 - x) one_pos (by linarith) (by linarith)
      unfold ln_beta_inc
      simp only [hx, if_false, hbr, hcf, Except.map]
      exact ⟨_, rfl⟩
  have hret : ∀ p1 p2 : ℝ, FPMIN ≤ p1 → FPMIN ≤ 1 - p1 → FPMIN ≤ p2 → FPMIN ≤ 1 - p2 →
      ∃ w, ln_beta_incdiff_return p1 p2 1 1 = Except.ok w := by
    intro p1 p2 h1 h1' h2 h2'
    obtain ⟨w1, e1⟩ := hinc p1 h1 h1'
    obtain ⟨w2, e2⟩ := hinc p2 h2 h2'
    unfold ln_beta_incdiff_return
    simp only [Int.cast_one, e1, e2, bind, Except.bind, pure, Except.pure]
    exact ⟨_, rfl⟩
  have hker : ∀ error : ℝ, FPMIN ≤ error → FPMIN ≤ 1 - error →
      ∃ w, ln_beta_incdiff_kernel (pv error 0) (pv error 1) 1 1 = Except.ok w := by
    intro error h1 h2
    have hp0 : pv error 0 = error := by unfold pv; ring
    have hp1 : pv error 1 = 1 - error := by unfold pv; ring
    unfold ln_beta_incdiff_kernel
    rw [hp0, hp1]
    split_ifs
    · exact hret (1 - (1 - error)) (1 - error) (by linarith) (by linarith) h2 (by linarith)
    · exact hret error (1 - error) h1 h2 h2 (by linarith)
  refine ⟨hinc, ?_⟩
  intro error mu mu_somatic h1 h2
  obtain ⟨k, hk⟩ := hker error h1 h2
  have e : ((0 : ℤ) + 0 + 1) = 1 := by norm_num
  have e' : ((0 : ℤ) + 1) = 1 := by norm_num
  constructor
  · unfold somatic_posterior ref_lnlik alt_lnlik
    simp only [if_true, e', hk, bind, Except.bind, pure, Except.pure]
    exact ⟨_, rfl⟩
  · unfold inconsist_score somatic_lnlik
    simp only [e, e', hk, bind, Except.bind, pure, Except.pure]
    exact ⟨_, rfl⟩

/-- C5: for read counts `≥ 0`, `0 < error < 0.5`, `0 ≤ mu ≤ 1`, `0 ≤ mu_somatic ≤ 1` and
`contam ≥ 0`, every value `v` that `somatic_posterior` returns is `1 − exp (m01 − d)` with
`d = ln_sum4 m00 m01 m10 m11` for the four hypothesis log-weights, where `m01 ≤ d`, and
therefore `0 ≤ v ≤ 1`, whatever values `ref_lnlik` and `alt_lnlik` return. -/
theorem somatic_posterior_in_unit_interval (kr_t kv_t kr_n kv_n : ℤ)
    (error mu mu_somatic contam v : ℝ)
    (_hkrt : 0 ≤ kr_t) (_hkvt : 0 ≤ kv_t) (_hkrn : 0 ≤ kr_n) (_hkvn : 0 ≤ kv_n)
    (_he0 : 0 < error) (_he1 : error < 0.5) (_hmu0 : 0 ≤ mu) (_hmu1 : mu ≤ 1)
    (_hms0 : 0 ≤ mu_somatic) (_hms1 : mu_somatic ≤ 1) (_hc : 0 ≤ contam)
    (hv : somatic_posterior kr_t kv_t kr_n kv_n error mu mu_somatic contam = Except.ok v) :
    (∃ m00 m01 m10 m11 : ℝ,
        v = 1 - Real.exp (m01 - ln_sum4 m00 m01 m10 m11) ∧ m01 ≤ ln_sum4 m00 m01 m10 m11)
      ∧ 0 ≤ v ∧ v ≤ 1 := by
  have key : ∃ m00 m01 m10 m11 : ℝ, v = 1 - Real.exp (m01 - ln_sum4 m00 m01 m10 m11) := by
    unfold somatic_posterior at hv
    cases h1 : ref_lnlik kr_n kv_n error contam with
    | error e => simp [h1, bind, Except.bind] at hv
    | ok rn =>
      cases h2 : ref_lnlik kr_t kv_t error contam with
      | error e => simp [h1, h2, bind, Except.bind] at hv
      | ok rt =>
        cases h3 : alt_lnlik kr_t kv_t error with
        | error e => simp [h1, h2, h3, bind, Except.bind] at hv
        | ok at_ =>
          cases h4 : alt_lnlik kr_n kv_n error with
          | error e => simp [h1, h2, h3, h4, bind, Except.bind] at hv
          | ok an =>
            simp only [h1, h2, h3, h4, bind, Except.bind, pure, Except.pure,
              Except.ok.injEq] at hv
            exact ⟨_, _, _, _, hv.symm⟩
  obtain ⟨m00, m01, m10, m11, hval⟩ := key
  have hle := log_domain_facts.2.1 m00 m01 m10 m11
  refine ⟨⟨m00, m01, m10, m11, hval, hle⟩, ?_, ?_⟩
  · rw [hval, sub_nonneg, Real.exp_le_one_iff]
    linarith
  · rw [hval]
    linarith [Real.exp_pos (m01 - ln_sum4 m00 m01 m10 m11)]

/-- Witness of C5: with no reads at either site, `error = 1/10`, `mu = mu_somatic = 1/1000`
and no contamination, `somatic_posterior` returns a value, which lies in `[0,1]`. -/
theorem somatic_posterior_in_unit_interval_witness :
    ∃ v, somatic_posterior 0 0 0 0 (1 / 10) (1 / 1000) (1 / 1000) 0 = Except.ok v
      ∧ 0 ≤ v ∧ v ≤ 1 := by
  obtain ⟨v, hv⟩ := (zero_counts_return.2 (1 / 10) (1 / 1000) (1 / 1000)
    (by unfold FPMIN; norm_num) (by unfold FPMIN; norm_num)).1
  exact ⟨v, hv, (somatic_posterior_in_unit_interval 0 0 0 0 (1 / 10) (1 / 1000) (1 / 1000) 0 v
    le_rfl le_rfl le_rfl le_rfl (by norm_num) (by norm_num) (by norm_num) (by norm_num)
    (by norm_num) (by norm_num) le_rfl hv).2⟩

/-! ## C6, C7: `genotype_lnlik` without contamination -/

/-- Value of `genotype_lnlik` at `contam = 0`: for `FPMIN ≤ p ≤ 1` neither clamp of
`ln_binom_kernel` changes `p`; each genotype is the kernel at its `pv` plus the
log-gamma terms; and for `FPMIN ≤ error < 0.5` the kernels at `pv(1) = 1 − error` and
at `pv(0) = error` are unclamped. -/
theorem genotype_lnlik_zero_contam :
    (∀ (p : ℝ) (a b : ℤ), FPMIN ≤ p → p ≤ 1 →
        ln_binom_kernel p a b = Real.log p * (a : ℝ) + Real.log (1 - p) * (b : ℝ))
      ∧ (∀ (kr kv : ℤ) (error : ℝ),
          genotype_lnlik HOMOREF kr kv error 0
              = Except.ok (ln_binom_kernel (pv error 0) kv kr + lgamma ((kv + kr + 1 : ℤ) : ℝ)
                  - lgamma ((kv + 1 : ℤ) : ℝ) - lgamma ((kr + 1 : ℤ) : ℝ))
            ∧ genotype_lnlik HET kr kv error 0
              = Except.ok (ln_binom_kernel (pv error 0.5) kv kr
                  + lgamma ((kv + kr + 1 : ℤ) : ℝ)
                  - lgamma ((kv + 1 : ℤ) : ℝ) - lgamma ((kr + 1 : ℤ) : ℝ))
            ∧ genotype_lnlik HOMOVAR kr kv error 0
              = Except.ok (ln_binom_kernel (pv error 1) kv kr + lgamma ((kv + kr + 1 : ℤ) : ℝ)
                  - lgamma ((kv + 1 : ℤ) : ℝ) - lgamma ((kr + 1 : ℤ) : ℝ)))
      ∧ (∀ (kr kv : ℤ) (error : ℝ), FPMIN ≤ error → error < 0.5 →
          genotype_lnlik HOMOVAR kr kv error 0
              = Except.ok (Real.log (1 - error) * (kv : ℝ)
                  + Real.log error * (kr : ℝ) + lgamma ((kv + kr + 1 : ℤ) : ℝ)
                  - lgamma ((kv + 1 : ℤ) : ℝ) - lgamma ((kr + 1 : ℤ) : ℝ))
            ∧ genotype_lnlik HOMOREF kr kv error 0
              = Except.ok (Real.log error * (kv : ℝ)
                  + Real.log (1 - error) * (kr : ℝ) + lgamma ((kv + kr + 1 : ℤ) : ℝ)
                  - lgamma ((kv + 1 : ℤ) : ℝ) - lgamma ((kr + 1 : ℤ) : ℝ))) := by
  obtain ⟨hF, -, hFh, -, -, -, -⟩ := basic_facts
  have uncl : ∀ (p : ℝ) (a b : ℤ), FPMIN ≤ p → p ≤ 1 →
      ln_binom_kernel p a b = Real.log p * (a : ℝ) + Real.log (1 - p) * (b : ℝ) := by
    intro p a b h1 h2
    unfold ln_binom_kernel one_minus_FPMIN
    simp only [if_neg (not_lt.mpr h1), if_neg (not_lt.mpr h2)]
  have gen : ∀ (kr kv : ℤ) (error : ℝ),
      genotype_lnlik HOMOREF kr kv error 0
          = Except.ok (ln_binom_kernel (pv error 0) kv kr + lgamma ((kv + kr + 1 : ℤ) : ℝ)
              - lgamma ((kv + 1 : ℤ) : ℝ) - lgamma ((kr + 1 : ℤ) : ℝ))
        ∧ genotype_lnlik HET kr kv error 0
          = Except.ok (ln_binom_kernel (pv error 0.5) kv kr + lgamma ((kv + kr + 1 : ℤ) : ℝ)
              - lgamma ((kv + 1 : ℤ) : ℝ) - lgamma ((kr + 1 : ℤ) : ℝ))
        ∧ genotype_lnlik HOMOVAR kr kv error 0
          = Except.ok (ln_binom_kernel (pv error 1) kv kr + lgamma ((kv + kr + 1 : ℤ) : ℝ)
              - lgamma ((kv + 1 : ℤ) : ℝ) - lgamma ((kr + 1 : ℤ) : ℝ)) := by
    intro kr kv error
    have h10 : ¬ HET = HOMOREF := by decide
    have h20 : ¬ HOMOVAR = HOMOREF := by decide
    have h21 : ¬ HOMOVAR = HET := by decide
    refine ⟨?_, ?_, ?_⟩
    · unfold genotype_lnlik
      simp only [if_true, bind, Except.bind, pure, Except.pure]
    · unfold genotype_lnlik
      simp only [h10, if_false, if_true, bind, Except.bind, pure, Except.pure]
    · unfold genotype_lnlik
      simp only [h20, h21, if_false, if_true, bind, Except.bind, pure, Except.pure]
  refine ⟨uncl, gen, ?_⟩
  intro kr kv error he0 he1
  have he : error < 1 / 2 := by norm_num at he1; exact he1
  have hp0 : pv error 0 = error := by unfold pv; ring
  have hp1 : pv error 1 = 1 - error := by unfold pv; ring
  obtain ⟨g0, -, g2⟩ := gen kr kv error
  constructor
  · rw [g2, hp1, uncl (1 - error) kv kr (by linarith) (by linarith), sub_sub_cancel]
  · rw [g0, hp0, uncl error kv kr he0 (by linarith)]

/-- C7 as stated fails: with `error = 1/10` and no contamination,
`genotype_lnlik HOMOVAR 0 1 = ln (9/10) < 0 = genotype_lnlik HOMOVAR 0 0`, and
`genotype_lnlik HOMOREF 1 0 = ln (9/10) < 0 = genotype_lnlik HOMOREF 0 0`. -/
theorem genotype_lnlik_not_monotone :
    genotype_lnlik HOMOVAR 0 (0 + 1) (1 / 10) 0 = Except.ok (Real.log (9 / 10))
      ∧ genotype_lnlik HOMOVAR 0 0 (1 / 10) 0 = Except.ok 0
      ∧ genotype_lnlik HOMOREF (0 + 1) 0 (1 / 10) 0 = Except.ok (Real.log (9 / 10))
      ∧ genotype_lnlik HOMOREF 0 0 (1 / 10) 0 = Except.ok 0
      ∧ ¬ (Real.log (9 / 10) ≥ 0) := by
  have val := genotype_lnlik_zero_contam.2.2
  obtain ⟨-, lg1, lg2, -, -, -, -, -⟩ := lgamma_facts
  have hF : FPMIN ≤ 1 / 10 := by unfold FPMIN; norm_num
  have h9 : (1 : ℝ) - 1 / 10 = 9 / 10 := by norm_num
  have hneg : ¬ (Real.log (9 / 10) ≥ 0) := by
    rw [ge_iff_le, not_le]
    exact Real.log_neg (by norm_num) (by norm_num)
  refine ⟨?_, ?_, ?_, ?_, hneg⟩
  · rw [(val 0 (0 + 1) (1 / 10) hF (by norm_num)).1, h9]
    norm_num [lg1, lg2]
  · rw [(val 0 0 (1 / 10) hF (by norm_num)).1, h9]
    norm_num [lg1]
  · rw [(val (0 + 1) 0 (1 / 10) hF (by norm_num)).2, h9]
    norm_num [lg1, lg2]
  · rw [(val 0 0 (1 / 10) hF (by norm_num)).2, h9]
    norm_num [lg1]

/-- C7, amended: for read counts `kr, kv ≥ 0`, `1e-6 ≤ error < 0.5` and `contam = 0`, one
more variant read changes `genotype_lnlik HOMOVAR` by
`ln (1 − error) + ln ((kr+kv+1)/(kv+1))`: the value rises when `error·(kr+kv+1) < kr`
and falls when `error·(kr+kv+1) > kr`; one more reference read changes
`genotype_lnlik HOMOREF` by `ln (1 − error) + ln ((kr+kv+1)/(kr+1))`: the value rises
when `error·(kr+kv+1) < kv` and falls when `error·(kr+kv+1) > kv`. -/
theorem genotype_lnlik_increment (kr kv : ℤ) (error : ℝ) (hkr : 0 ≤ kr) (hkv : 0 ≤ kv)
    (he0 : 1 / 10 ^ 6 ≤ error) (he1 : error < 0.5) :
    (∃ v1 v0 : ℝ, genotype_lnlik HOMOVAR kr (kv + 1) error 0 = Except.ok v1
        ∧ genotype_lnlik HOMOVAR kr kv error 0 = Except.ok v0
        ∧ v1 - v0 = Real.log (1 - error)
            + Real.log (((kr : ℝ) + (kv : ℝ) + 1) / ((kv : ℝ) + 1))
        ∧ (error * ((kr : ℝ) + (kv : ℝ) + 1) < (kr : ℝ) → v0 < v1)
        ∧ ((kr : ℝ) < error * ((kr : ℝ) + (kv : ℝ) + 1) → v1 < v0))
      ∧ (∃ v1 v0 : ℝ, genotype_lnlik HOMOREF (kr + 1) kv error 0 = Except.ok v1
        ∧ genotype_lnlik HOMOREF kr kv error 0 = Except.ok v0
        ∧ v1 - v0 = Real.log (1 - error)
            + Real.log (((kr : ℝ) + (kv : ℝ) + 1) / ((kr : ℝ) + 1))
        ∧ (error * ((kr : ℝ) + (kv : ℝ) + 1) < (kv : ℝ) → v0 < v1)
        ∧ ((kv : ℝ) < error * ((kr : ℝ) + (kv : ℝ) + 1) → v1 < v0)) := by
  have val := genotype_lnlik_zero_contam.2.2
  have hadd := lgamma_facts.2.2.2.2.2.1
  have hF : FPMIN ≤ error := le_trans (by unfold FPMIN; norm_num) he0
  have he : error < 1 := by norm_num at he1; linarith
  have h1e : 0 < 1 - error := by linarith
  have gain : ∀ N K : ℝ, 0 < N → 0 < K →
      (error * N < N - K → 0 < Real.log (1 - error) + Real.log (N / K))
        ∧ (N - K < error * N → Real.log (1 - error) + Real.log (N / K) < 0) := by
    intro N K hN hK
    have hpos : 0 < (1 - error) * (N / K) := mul_pos h1e (div_pos hN hK)
    rw [← Real.log_mul h1e.ne' (div_pos hN hK).ne']
    constructor
    · intro h
      apply Real.log_pos
      rw [mul_div_assoc', lt_div_iff₀ hK]
      nlinarith
    · intro h
      apply Real.log_neg hpos
      rw [mul_div_assoc', div_lt_iff₀ hK]
      nlinarith
  have key : ∀ (a b F : ℝ) (P Q : Prop), (P → 0 < F) → (Q → F < 0) → a - b = F →
      (a - b = F ∧ (P → b < a) ∧ (Q → a < b)) := by
    intro a b F P Q hp hq h
    exact ⟨h, fun p => by have := hp p; linarith, fun q => by have := hq q; linarith⟩
  have hr : (0 : ℝ) ≤ (kr : ℝ) := by exact_mod_cast hkr
  have hv : (0 : ℝ) ≤ (kv : ℝ) := by exact_mod_cast hkv
  have hN : (0 : ℝ) < (kr : ℝ) + (kv : ℝ) + 1 := by linarith
  have hKv : (0 : ℝ) < (kv : ℝ) + 1 := by linarith
  have hKr : (0 : ℝ) < (kr : ℝ) + 1 := by linarith
  have gN : lgamma ((kr : ℝ) + (kv : ℝ) + 1 + 1)
      = Real.log ((kr : ℝ) + (kv : ℝ) + 1) + lgamma ((kr : ℝ) + (kv : ℝ) + 1) :=
    hadd _ hN
  have gV : lgamma ((kv : ℝ) + 1 + 1) = Real.log ((kv : ℝ) + 1) + lgamma ((kv : ℝ) + 1) :=
    hadd _ hKv
  have gR : lgamma ((kr : ℝ) + 1 + 1) = Real.log ((kr : ℝ) + 1) + lgamma ((kr : ℝ) + 1) :=
    hadd _ hKr
  have iV := gain ((kr : ℝ) + (kv : ℝ) + 1) ((kv : ℝ) + 1) hN hKv
  have iR := gain ((kr : ℝ) + (kv : ℝ) + 1) ((kr : ℝ) + 1) hN hKr
  have e5 : (kr : ℝ) + (kv : ℝ) + 1 - ((kv : ℝ) + 1) = (kr : ℝ) := by ring
  have e6 : (kr : ℝ) + (kv : ℝ) + 1 - ((kr : ℝ) + 1) = (kv : ℝ) := by ring
  rw [e5] at iV
  rw [e6] at iR
  constructor
  · refine ⟨_, _, (val kr (kv + 1) error hF he1).1, (val kr kv error hF he1).1,
      key _ _ _ _ _ iV.1 iV.2 ?_⟩
    have c1 : (((kv + 1 + kr + 1 : ℤ) : ℝ)) = (kr : ℝ) + (kv : ℝ) + 1 + 1 := by
      push_cast; ring
    have c2 : (((kv + 1 + 1 : ℤ) : ℝ)) = (kv : ℝ) + 1 + 1 := by push_cast; ring
    have c3 : (((kv + kr + 1 : ℤ) : ℝ)) = (kr : ℝ) + (kv : ℝ) + 1 := by push_cast; ring
    have c4 : (((kv + 1 : ℤ) : ℝ)) = (kv : ℝ) + 1 := by push_cast; ring
    rw [c1, c2, c3, c4, gN, gV, Real.log_div hN.ne' hKv.ne']
    push_cast
    ring
  · refine ⟨_, _, (val (kr + 1) kv error hF he1).2, (val kr kv error hF he1).2,
      key _ _ _ _ _ iR.1 iR.2 ?_⟩
    have c1 : (((kv + (kr + 1) + 1 : ℤ) : ℝ)) = (kr : ℝ) + (kv : ℝ) + 1 + 1 := by
      push_cast; ring
    have c2 : (((kr + 1 + 1 : ℤ) : ℝ)) = (kr : ℝ) + 1 + 1 := by push_cast; ring
    have c3 : (((kv + kr + 1 : ℤ) : ℝ)) = (kr : ℝ) + (kv : ℝ) + 1 := by push_cast; ring
    have c4 : (((kr + 1 : ℤ) : ℝ)) = (kr : ℝ) + 1 := by push_cast; ring
    rw [c1, c2, c3, c4, gN, gR, Real.log_div hN.ne' hKr.ne']
    push_cast
    ring

/-- Witness of the amended C7 at `kr = 1`, `kv = 0`, `error = 1/10`. -/
theorem genotype_lnlik_increment_witness :
    (∃ v1 v0 : ℝ, genotype_lnlik HOMOVAR 1 (0 + 1) (1 / 10) 0 = Except.ok v1
        ∧ genotype_lnlik HOMOVAR 1 0 (1 / 10) 0 = Except.ok v0
        ∧ v1 - v0 = Real.log (1 - 1 / 10)
            + Real.log ((((1 : ℤ) : ℝ) + ((0 : ℤ) : ℝ) + 1) / (((0 : ℤ) : ℝ) + 1))
        ∧ (1 / 10 * (((1 : ℤ) : ℝ) + ((0 : ℤ) : ℝ) + 1) < ((1 : ℤ) : ℝ) → v0 < v1)
        ∧ (((1 : ℤ) : ℝ) < 1 / 10 * (((1 : ℤ) : ℝ) + ((0 : ℤ) : ℝ) + 1) → v1 < v0))
      ∧ (∃ v1 v0 : ℝ, genotype_lnlik HOMOREF (1 + 1) 0 (1 / 10) 0 = Except.ok v1
        ∧ genotype_lnlik HOMOREF 1 0 (1 / 10) 0 = Except.ok v0
        ∧ v1 - v0 = Real.log (1 - 1 / 10)
            + Real.log ((((1 : ℤ) : ℝ) + ((0 : ℤ) : ℝ) + 1) / (((1 : ℤ) : ℝ) + 1))
        ∧ (1 / 10 * (((1 : ℤ) : ℝ) + ((0 : ℤ) : ℝ) + 1) < ((0 : ℤ) : ℝ) → v0 < v1)
        ∧ (((0 : ℤ) : ℝ) < 1 / 10 * (((1 : ℤ) : ℝ) + ((0 : ℤ) : ℝ) + 1) → v1 < v0)) :=
  genotype_lnlik_increment 1 0 (1 / 10) (by norm_num) (by norm_num) (by norm_num)
    (by norm_num)

/-! ## C8: a negative contamination fraction is rejected -/

/-- C8: for every `contam < 0` and every value of the other arguments, `genotype_lnlik`,
`varcall_pval` and `ref_lnlik` each abort and return no value: `varcall_pval`, `ref_lnlik`
and `genotype_lnlik` on a genotype of the enumeration with "Contamination extent cannot
be negative", `genotype_lnlik` on any other tag with "Genotype not recognized". -/
theorem negative_contam_rejected (g : Genotype) (kr kv : ℤ) (error mu contam : ℝ)
    (hc : contam < 0) :
    genotype_lnlik g kr kv error contam
        = Except.error (if g = HOMOREF ∨ g = HET ∨ g = HOMOVAR then Abort.negative_contam
            else Abort.genotype_unrecognized)
      ∧ varcall_pval kr kv error mu contam = Except.error Abort.negative_contam
      ∧ ref_lnlik kr kv error contam = Except.error Abort.negative_contam := by
  have h0 : ¬ contam = 0 := hc.ne
  have h1 : ¬ contam ≥ 0 := not_le.mpr hc
  have h2 : ¬ contam > 0 := not_lt.mpr hc.le
  refine ⟨?_, ?_, ?_⟩
  · unfold genotype_lnlik
    by_cases g0 : g = HOMOREF
    · simp only [g0, h0, h1, if_true, if_false, true_or, bind, Except.bind]
    · by_cases g1 : g = HET
      · simp only [g0, g1, h0, h1, if_true, if_false, true_or, or_true, bind, Except.bind,
          ite_self]
      · by_cases g2 : g = HOMOVAR
        · simp only [g0, g1, g2, h0, h1, if_true, if_false, or_true, bind, Except.bind,
            ite_self]
        · simp only [g0, g1, g2, if_false, or_self, bind, Except.bind]
  · unfold varcall_pval
    simp only [h0, h1, if_false]
  · unfold ref_lnlik
    simp only [h0, h2, if_false]

/-- Witness of C8 at `contam = -1` for a heterozygous genotype. -/
theorem negative_contam_rejected_witness :
    genotype_lnlik HET 10 5 (1 / 1000) (-1)
        = Except.error (if HET = HOMOREF ∨ HET = HET ∨ HET = HOMOVAR then Abort.negative_contam
            else Abort.genotype_unrecognized)
      ∧ varcall_pval 10 5 (1 / 1000) (1 / 1000) (-1) = Except.error Abort.negative_contam
      ∧ ref_lnlik 10 5 (1 / 1000) (-1) = Except.error Abort.negative_contam :=
  negative_contam_rejected HET 10 5 (1 / 1000) (1 / 1000) (-1) (by norm_num)

/-! ## C9: `binom_pval` is the binomial survival function -/

/-- Each term `binom_coeff m n p q` is the binomial mass `C(m+n, m) p^m q^n`, and from
counter `I ≤ S` the loop of `binom_pval` subtracts the binomial masses of `I, ..., S-1`. -/
theorem binom_loop_facts :
    (∀ (m n : ℕ) (p q : ℝ), 0 < p → 0 < q →
        binom_coeff (m : ℤ) (n : ℤ) p q = ((m + n).choose m : ℝ) * p ^ m * q ^ n)
      ∧ (∀ (S N : ℕ) (p : ℝ), S ≤ N + 1 → 0 < p → p < 1 →
          ∀ (k I : ℕ), I + k = S → ∀ cdf : ℝ,
            binom_pval_loop (S : ℤ) (N : ℤ) p (I : ℤ) cdf
              = cdf - ∑ j in Finset.Ico I S,
                  (N.choose j : ℝ) * p ^ j * (1 - p) ^ (N - j)) := by
  have hchoose := lgamma_facts.2.2.2.2.2.2.1
  have coeff : ∀ (m n : ℕ) (p q : ℝ), 0 < p → 0 < q →
      binom_coeff (m : ℤ) (n : ℤ) p q = ((m + n).choose m : ℝ) * p ^ m * q ^ n := by
    intro m n p q hp hq
    have hc : (0 : ℝ) < ((n + m).choose m : ℕ) :=
      Nat.cast_pos.mpr (Nat.choose_pos (Nat.le_add_left m n))
    have h := hchoose n m
    have e1 : (((m : ℤ) + (n : ℤ) : ℤ) : ℝ) + 1 = ((n + m : ℕ) : ℝ) + 1 := by push_cast; ring
    unfold binom_coeff
    simp only [e1, Int.cast_natCast]
    have e2 : lgamma (((n + m : ℕ) : ℝ) + 1) - (lgamma ((n : ℝ) + 1) + lgamma ((m : ℝ) + 1))
        + ((m : ℝ) * Real.log p + (n : ℝ) * Real.log q)
        = Real.log (((n + m).choose m : ℕ) : ℝ)
            + ((m : ℝ) * Real.log p + (n : ℝ) * Real.log q) := by
      rw [← h]; ring
    rw [e2, Real.exp_add, Real.exp_add, Real.exp_log hc, Real.exp_nat_mul, Real.exp_nat_mul,
      Real.exp_log hp, Real.exp_log hq, add_comm n m]
    ring
  refine ⟨coeff, ?_⟩
  intro S N p hS hp0 hp1 k
  induction k with
  | zero =>
    intro I hI cdf
    have hIS : I = S := by omega
    subst hIS
    rw [binom_pval_loop, if_neg (lt_irrefl _)]
    simp
  | succ k ih =>
    intro I hI cdf
    have hlt : I < S := by omega
    have hIN : I ≤ N := by omega
    have hlt' : (I : ℤ) < (S : ℤ) := by exact_mod_cast hlt
    rw [binom_pval_loop, if_pos hlt']
    have e1 : (I : ℤ) + 1 = ((I + 1 : ℕ) : ℤ) := by push_cast; ring
    have e2 : (N : ℤ) - (I : ℤ) = ((N - I : ℕ) : ℤ) := by
      rw [Nat.cast_sub hIN]
    rw [e1, e2, ih (I + 1) (by omega), coeff I (N - I) p (1 - p) hp0 (by linarith),
      Finset.sum_eq_sum_Ico_succ_bot hlt, Nat.add_sub_cancel' hIN]
    ring

/-- C9: for integers `n ≥ 0`, `0 ≤ s ≤ n+1` and real `0 < p < 1`, `binom_pval s n p` is the
binomial survival function `Σ_{i=s}^{n} C(n,i) p^i (1−p)^(n−i)`, each subtracted term
`binom_coeff i (n−i) p (1−p)` being `C(n,i) p^i (1−p)^(n−i)`; in particular
`binom_pval 0 n p = 1`. -/
theorem binom_pval_survival (s n : ℤ) (p : ℝ) (hn : 0 ≤ n) (hs0 : 0 ≤ s) (hs1 : s ≤ n + 1)
    (hp0 : 0 < p) (hp1 : p < 1) :
    binom_pval s n p
        = ∑ i in Finset.Ico s.toNat (n.toNat + 1),
            (n.toNat.choose i : ℝ) * p ^ i * (1 - p) ^ (n.toNat - i)
      ∧ (∀ i : ℕ, i ≤ n.toNat →
          binom_coeff (i : ℤ) (n - (i : ℤ)) p (1 - p)
            = (n.toNat.choose i : ℝ) * p ^ i * (1 - p) ^ (n.toNat - i))
      ∧ binom_pval 0 n p = 1 := by
  obtain ⟨coeff, loop⟩ := binom_loop_facts
  obtain ⟨N, rfl⟩ := Int.eq_ofNat_of_zero_le hn
  obtain ⟨S, rfl⟩ := Int.eq_ofNat_of_zero_le hs0
  have hS : S ≤ N + 1 := by exact_mod_cast hs1
  simp only [Int.toNat_natCast]
  refine ⟨?_, ?_, ?_⟩
  · have h := loop S N p hS hp0 hp1 S 0 (by omega) 1
    have hsplit := Finset.sum_Ico_consecutive
      (fun j => (N.choose j : ℝ) * p ^ j * (1 - p) ^ (N - j)) (Nat.zero_le S) hS
    have htot : ∑ j in Finset.Ico 0 (N + 1), (N.choose j : ℝ) * p ^ j * (1 - p) ^ (N - j)
        = 1 := by
      have hb := add_pow p (1 - p) N
      rw [add_sub_cancel, one_pow] at hb
      rw [← Finset.range_eq_Ico]
      refine Eq.trans ?_ hb.symm
      apply Finset.sum_congr rfl
      intro j _
      ring
    unfold binom_pval
    rw [Nat.cast_zero] at h
    rw [h]
    linarith
  · intro i hi
    have e2 : (N : ℤ) - (i : ℤ) = ((N - i : ℕ) : ℤ) := by
      rw [Nat.cast_sub hi]
    rw [e2, coeff i (N - i) p (1 - p) hp0 (by linarith), Nat.add_sub_cancel' hi]
  · unfold binom_pval
    rw [binom_pval_loop, if_neg (lt_irrefl _)]

/-- Witness of C9 at `s = 1`, `n = 2`, `p = 1/2`. -/
theorem binom_pval_survival_witness :
    binom_pval 1 2 (1 / 2)
        = ∑ i in Finset.Ico (1 : ℤ).toNat ((2 : ℤ).toNat + 1),
            ((2 : ℤ).toNat.choose i : ℝ) * (1 / 2) ^ i * (1 - 1 / 2) ^ ((2 : ℤ).toNat - i)
      ∧ (∀ i : ℕ, i ≤ (2 : ℤ).toNat →
          binom_coeff (i : ℤ) (2 - (i : ℤ)) (1 / 2) (1 - 1 / 2)
            = ((2 : ℤ).toNat.choose i : ℝ) * (1 / 2) ^ i * (1 - 1 / 2) ^ ((2 : ℤ).toNat - i))
      ∧ binom_pval 0 2 (1 / 2) = 1 :=
  binom_pval_survival 1 2 (1 / 2) (by norm_num) (by norm_num) (by norm_num) (by norm_num)
    (by norm_num)

/-! ## C10 to C13: range, monotonicity, rounding and boundary values of `pval2qual` -/

/-- Facts behind `pval2qual`: the floor `pow(10, -30.0)` is `1e-30`, positive and below
one; values of `log10`; the Phred value before truncation is non-negative for
`pval ≤ 1` and does not increase with `pval`; truncation toward zero is monotone. -/
theorem pval2qual_facts :
    (0 < pow 10 (-30) ∧ pow 10 (-30) < 1 ∧ pow 10 (-30) = 1 / 10 ^ 30)
      ∧ log10 100 = 2 ∧ log10 1 = 0 ∧ (∀ z : ℝ, log10 (pow 10 z) = z)
      ∧ (∀ pval : ℝ, pval ≤ 1 → 0 ≤ -10 * log10 (max pval (pow 10 (-30))) + 0.499)
      ∧ (∀ p q : ℝ, p ≤ q →
          -10 * log10 (max q (pow 10 (-30))) + 0.499
            ≤ -10 * log10 (max p (pow 10 (-30))) + 0.499)
      ∧ (∀ x y : ℝ, x ≤ y → toInt x ≤ toInt y) := by
  obtain ⟨-, -, -, -, hmaxle, hmaxmono, -⟩ := basic_facts
  have h10 : 0 < Real.log 10 := Real.log_pos (by norm_num)
  have hp0 : 0 < pow 10 (-30) := by
    unfold pow
    exact Real.rpow_pos_of_pos (by norm_num) _
  have hp1 : pow 10 (-30) < 1 := by
    unfold pow
    exact Real.rpow_lt_one_of_one_lt_of_neg (by norm_num) (by norm_num)
  refine ⟨⟨hp0, hp1, ?_⟩, ?_, ?_, ?_, ?_, ?_, ?_⟩
  · unfold pow
    have e : (30 : ℝ) = ((30 : ℕ) : ℝ) := by norm_num
    rw [Real.rpow_neg (by norm_num), e, Real.rpow_natCast, one_div]
  · unfold log10
    have h : (100 : ℝ) = 10 ^ 2 := by norm_num
    rw [h, Real.log_pow]
    field_simp
  · unfold log10
    rw [Real.log_one, zero_div]
  · intro z
    unfold log10 pow
    rw [Real.log_rpow (by norm_num)]
    field_simp
  · intro pval h1
    have hm0 : 0 < max pval (pow 10 (-30)) := lt_of_lt_of_le hp0 (hmaxle _ _).2
    have hm1 : max pval (pow 10 (-30)) ≤ 1 := by
      unfold max
      split_ifs
      · exact h1
      · exact hp1.le
    have hl : log10 (max pval (pow 10 (-30))) ≤ 0 := by
      unfold log10
      exact div_nonpos_of_nonpos_of_nonneg (Real.log_nonpos hm0.le hm1) h10.le
    norm_num
    linarith
  · intro p q h
    have hm0 : 0 < max p (pow 10 (-30)) := lt_of_lt_of_le hp0 (hmaxle _ _).2
    have hl : log10 (max p (pow 10 (-30))) ≤ log10 (max q (pow 10 (-30))) := by
      unfold log10
      exact div_le_div_of_nonneg_right
        (Real.log_le_log hm0 (hmaxmono p q (pow 10 (-30)) h)) h10.le
    linarith
  · intro x y h
    unfold toInt
    by_cases hx : 0 ≤ x
    · rw [if_pos hx, if_pos (le_trans hx h)]
      exact Int.floor_le_floor h
    · rw [if_neg hx]
      by_cases hy : 0 ≤ y
      · rw [if_pos hy]
        have h1 : ⌈x⌉ ≤ 0 := Int.ceil_le.mpr (by push_cast; exact (not_le.mp hx).le)
        exact le_trans h1 (Int.floor_nonneg.mpr hy)
      · rw [if_neg hy]
        exact Int.ceil_le_ceil h

/-- C10 as stated fails: `pval2qual 100 = -19`, a negative quality. -/
theorem pval2qual_negative :
    pval2qual 100 = -19
      ∧ ¬ (∀ pval : ℝ, ∃ q : ℤ, pval2qual pval = (q : ℝ) ∧ 0 ≤ q ∧ q ≤ 255) := by
  obtain ⟨⟨-, hp1, -⟩, hlog, -, -, -, -, -⟩ := pval2qual_facts
  have hval : pval2qual 100 = -19 := by
    have hm : max 100 (pow 10 (-30)) = 100 := by
      unfold max
      rw [if_pos (by linarith)]
    have hy : (-10 : ℝ) * 2 + 0.499 = -19.501 := by norm_num
    have hneg : ¬ (0 : ℝ) ≤ -19.501 := by norm_num
    have hceil : ⌈(-19.501 : ℝ)⌉ = -19 := by
      rw [Int.ceil_eq_iff]
      constructor <;> norm_num
    have hq : ¬ ((-19 : ℤ) > 255) := by decide
    unfold pval2qual toInt
    simp only [hm, hlog, hy, if_neg hneg, hceil, if_neg hq]
    norm_num
  refine ⟨hval, fun h => ?_⟩
  obtain ⟨q, hq, hq0, -⟩ := h 100
  rw [hval] at hq
  have : (q : ℝ) = ((-19 : ℤ) : ℝ) := by rw [← hq]; norm_num
  have hq' : q = -19 := by exact_mod_cast this
  omega

/-- C10, amended: for every real `pval`, `pval2qual pval` is an integer `q ≤ 255`, and
`0 ≤ q` whenever `pval ≤ 1`. -/
theorem pval2qual_range (pval : ℝ) :
    ∃ q : ℤ, pval2qual pval = (q : ℝ) ∧ q ≤ 255 ∧ (pval ≤ 1 → 0 ≤ q) := by
  have hnn := pval2qual_facts.2.2.2.2.1
  by_cases hbig :
      toInt (-10 * log10 (max pval (pow 10 (-30))) + 0.499) > 255
  · refine ⟨255, ?_, le_refl _, fun _ => by norm_num⟩
    unfold pval2qual
    simp only [if_pos hbig]
    norm_num
  · refine ⟨toInt (-10 * log10 (max pval (pow 10 (-30))) + 0.499), ?_, not_lt.mp hbig, ?_⟩
    · unfold pval2qual
      simp only [if_neg hbig]
    · intro h1
      have hy := hnn pval h1
      unfold toInt
      rw [if_pos hy]
      exact Int.floor_nonneg.mpr hy

/-- Witness of the amended C10 at `pval = 1/2`. -/
theorem pval2qual_range_witness :
    ∃ q : ℤ, pval2qual (1 / 2) = (q : ℝ) ∧ q ≤ 255 ∧ ((1 / 2 : ℝ) ≤ 1 → 0 ≤ q) :=
  pval2qual_range (1 / 2)

/-- C11: `pval2qual` is monotonically non-increasing: `p ≤ q` implies
`pval2qual p ≥ pval2qual q`. -/
theorem pval2qual_antitone (p q : ℝ) (h : p ≤ q) : pval2qual p ≥ pval2qual q := by
  obtain ⟨-, -, -, -, -, hanti, hmono⟩ := pval2qual_facts
  have ht := hmono _ _ (hanti p q h)
  unfold pval2qual
  simp only [ge_iff_le]
  split_ifs with h1 h2 h2
  · exact le_rfl
  · exact absurd (lt_of_lt_of_le h1 ht) h2
  · have : toInt (-10 * log10 (max q (pow 10 (-30))) + 0.499) ≤ 255 := not_lt.mp h1
    exact_mod_cast this
  · exact_mod_cast ht

/-- Witness of C11 at `p = 1/2`, `q = 1`. -/
theorem pval2qual_antitone_witness : pval2qual (1 / 2) ≥ pval2qual 1 :=
  pval2qual_antitone (1 / 2) 1 (by norm_num)

/-- C12 as stated fails: at `pval = 10^(-0.05005)` the Phred value is `0.5005`, whose
nearest integer is `1`, but `pval2qual` returns `(int)(0.5005 + 0.499) = 0`. -/
theorem pval2qual_not_round :
    pval2qual (pow 10 (-0.05005)) = 0
      ∧ round (-10 * log10 (max (pow 10 (-0.05005)) (pow 10 (-30)))) = 1
      ∧ ¬ (∀ pval : ℝ, 0 < pval → pval ≤ 1 →
            pval2qual pval
              = ((min 255 (round (-10 * log10 (max pval (pow 10 (-30))))) : ℤ) : ℝ)) := by
  have hlogpow := pval2qual_facts.2.2.2.1
  have hm : max (pow 10 (-0.05005)) (pow 10 (-30)) = pow 10 (-0.05005) := by
    unfold max
    rw [if_pos]
    unfold pow
    exact Real.rpow_lt_rpow_of_exponent_lt (by norm_num) (by norm_num)
  have hpos : 0 < pow 10 (-0.05005) := by
    unfold pow; exact Real.rpow_pos_of_pos (by norm_num) _
  have hle : pow 10 (-0.05005) ≤ 1 := by
    unfold pow
    exact (Real.rpow_lt_one_of_one_lt_of_neg (by norm_num) (by norm_num)).le
  have hy : (0 : ℝ) ≤ -10 * -0.05005 + 0.499 := by norm_num
  have hfl : ⌊(-10 : ℝ) * -0.05005 + 0.499⌋ = 0 := by
    rw [Int.floor_eq_iff]
    constructor <;> norm_num
  have hq : ¬ ((0 : ℤ) > 255) := by decide
  have hval : pval2qual (pow 10 (-0.05005)) = 0 := by
    unfold pval2qual toInt
    simp only [hm, hlogpow, if_pos hy, hfl, if_neg hq, Int.cast_zero]
  have hround : round (-10 * log10 (max (pow 10 (-0.05005)) (pow 10 (-30)))) = 1 := by
    rw [hm, hlogpow, round_eq, Int.floor_eq_iff]
    constructor <;> norm_num
  refine ⟨hval, hround, fun h => ?_⟩
  have h1 := h _ hpos hle
  rw [hval, hround] at h1
  norm_num at h1

/-- C12, amended: for `pval` in `(0,1]`, with `y = −10·log10(max(pval, 1e-30))` the Phred
value, `pval2qual pval = min(255, ⌊y + 0.499⌋)`; this is `min(255, round y)` whenever the
fractional part of `y` lies outside `[0.5, 0.501)`. -/
theorem pval2qual_floor (pval : ℝ) (_h0 : 0 < pval) (h1 : pval ≤ 1) :
    pval2qual pval
        = ((min 255 ⌊-10 * log10 (max pval (pow 10 (-30))) + 0.499⌋ : ℤ) : ℝ)
      ∧ (Int.fract (-10 * log10 (max pval (pow 10 (-30)))) < 0.5
          ∨ 0.501 ≤ Int.fract (-10 * log10 (max pval (pow 10 (-30)))) →
        pval2qual pval
          = ((min 255 (round (-10 * log10 (max pval (pow 10 (-30))))) : ℤ) : ℝ)) := by
  have hy := pval2qual_facts.2.2.2.2.1 pval h1
  have hfloor : pval2qual pval
      = ((min 255 ⌊-10 * log10 (max pval (pow 10 (-30))) + 0.499⌋ : ℤ) : ℝ) := by
    unfold pval2qual toInt
    simp only [if_pos hy]
    split_ifs with hq
    · rw [min_eq_left hq.le]
      norm_num
    · rw [min_eq_right (not_lt.mp hq)]
  have hround : ∀ y : ℝ, Int.fract y < 0.5 ∨ 0.501 ≤ Int.fract y →
      ⌊y + 0.499⌋ = round y := by
    intro y h
    have hf0 := Int.fract_nonneg y
    have hf1 := Int.fract_lt_one y
    have hyy : y = (⌊y⌋ : ℝ) + Int.fract y := (Int.floor_add_fract y).symm
    rw [round_eq]
    rcases h with h | h
    · have e1 : ⌊y + 0.499⌋ = ⌊y⌋ := by
        rw [Int.floor_eq_iff]
        constructor
        · norm_num at h ⊢; linarith
        · norm_num at h ⊢; linarith
      have e2 : ⌊y + 1 / 2⌋ = ⌊y⌋ := by
        rw [Int.floor_eq_iff]
        constructor
        · norm_num at h ⊢; linarith
        · norm_num at h ⊢; linarith
      rw [e1, e2]
    · have e1 : ⌊y + 0.499⌋ = ⌊y⌋ + 1 := by
        rw [Int.floor_eq_iff]
        push_cast
        constructor
        · norm_num at h ⊢; linarith
        · norm_num at h ⊢; linarith
      have e2 : ⌊y + 1 / 2⌋ = ⌊y⌋ + 1 := by
        rw [Int.floor_eq_iff]
        push_cast
        constructor
        · norm_num at h ⊢; linarith
        · norm_num at h ⊢; linarith
      rw [e1, e2]
  refine ⟨hfloor, fun hfr => ?_⟩
  rw [hfloor, hround _ hfr]

/-- Witness of the amended C12 at `pval = 1`. -/
theorem pval2qual_floor_witness :
    pval2qual 1
        = ((min 255 ⌊-10 * log10 (max 1 (pow 10 (-30))) + 0.499⌋ : ℤ) : ℝ)
      ∧ (Int.fract (-10 * log10 (max 1 (pow 10 (-30)))) < 0.5
          ∨ 0.501 ≤ Int.fract (-10 * log10 (max 1 (pow 10 (-30)))) →
        pval2qual 1
          = ((min 255 (round (-10 * log10 (max 1 (pow 10 (-30))))) : ℤ) : ℝ)) :=
  pval2qual_floor 1 one_pos le_rfl

/-- C13: `pval2qual 1 = 0`, and `pval2qual x = 255` for every `x ≤ 1e-30`, the
non-positive `x` included. -/
theorem pval2qual_boundary (x : ℝ) (hx : x ≤ 1 / 10 ^ 30) :
    pval2qual 1 = 0 ∧ pval2qual x = 255 := by
  obtain ⟨⟨-, hp1, hpe⟩, -, hlog1, hlogpow, -, -, -⟩ := pval2qual_facts
  constructor
  · have hm : max 1 (pow 10 (-30)) = 1 := by
      unfold max
      rw [if_pos hp1]
    have hy : (0 : ℝ) ≤ -10 * 0 + 0.499 := by norm_num
    have hfl : ⌊(-10 : ℝ) * 0 + 0.499⌋ = 0 := by
      rw [Int.floor_eq_iff]
      constructor <;> norm_num
    have hq : ¬ ((0 : ℤ) > 255) := by decide
    unfold pval2qual toInt
    simp only [hm, hlog1, if_pos hy, hfl, if_neg hq, Int.cast_zero]
  · have hm : max x (pow 10 (-30)) = pow 10 (-30) := by
      unfold max
      rw [if_neg (by rw [hpe]; exact not_lt.mpr hx)]
    have hy : (0 : ℝ) ≤ -10 * -30 + 0.499 := by norm_num
    have hfl : ⌊(-10 : ℝ) * -30 + 0.499⌋ = 300 := by
      rw [Int.floor_eq_iff]
      constructor <;> norm_num
    have hq : (300 : ℤ) > 255 := by decide
    unfold pval2qual toInt
    simp only [hm, hlogpow, if_pos hy, hfl, if_pos hq]

/-- Witness of C13 at `x = 0`. -/
theorem pval2qual_boundary_witness : pval2qual 1 = 0 ∧ pval2qual 0 = 255 :=
  pval2qual_boundary 0 (by norm_num)

/-! ## C14: `varcall_pval` on clear reference and clear variant sites -/

/-- C14: `varcall_pval` returns `U/(U+V)` with `U = pv(0)^kv·(1−pv(0))^kr·(1−mu)` and
`V = (beta_inc(kv+1,kr+1,pv(1)) − beta_inc(kv+1,kr+1,pv(0)))·mu`; at `kr = 100`, `kv = 0`,
`error = mu = 0.001`, `contam = 0` the value exceeds `0.99`, and at `kr = 0`, `kv = 100`
it is below `0.01`. -/
theorem varcall_pval_separates :
    (∃ b1 b0 : ℝ,
        beta_inc ((0 + 1 : ℤ) : ℝ) ((100 + 1 : ℤ) : ℝ) (pv (1 / 1000) 1) = Except.ok b1
        ∧ beta_inc ((0 + 1 : ℤ) : ℝ) ((100 + 1 : ℤ) : ℝ) (pv (1 / 1000) 0) = Except.ok b0
        ∧ varcall_pval 100 0 (1 / 1000) (1 / 1000) 0
            = Except.ok (pow (pv (1 / 1000) 0) ((0 : ℤ) : ℝ)
                  * pow (1 - pv (1 / 1000) 0) ((100 : ℤ) : ℝ) * (1 - 1 / 1000)
                / (pow (pv (1 / 1000) 0) ((0 : ℤ) : ℝ)
                  * pow (1 - pv (1 / 1000) 0) ((100 : ℤ) : ℝ) * (1 - 1 / 1000)
                  + (b1 - b0) * (1 / 1000)))
        ∧ pow (pv (1 / 1000) 0) ((0 : ℤ) : ℝ)
              * pow (1 - pv (1 / 1000) 0) ((100 : ℤ) : ℝ) * (1 - 1 / 1000)
            / (pow (pv (1 / 1000) 0) ((0 : ℤ) : ℝ)
              * pow (1 - pv (1 / 1000) 0) ((100 : ℤ) : ℝ) * (1 - 1 / 1000)
              + (b1 - b0) * (1 / 1000)) > 0.99)
      ∧ (∃ b1 b0 : ℝ,
        beta_inc ((100 + 1 : ℤ) : ℝ) ((0 + 1 : ℤ) : ℝ) (pv (1 / 1000) 1) = Except.ok b1
        ∧ beta_inc ((100 + 1 : ℤ) : ℝ) ((0 + 1 : ℤ) : ℝ) (pv (1 / 1000) 0) = Except.ok b0
        ∧ varcall_pval 0 100 (1 / 1000) (1 / 1000) 0
            = Except.ok (pow (pv (1 / 1000) 0) ((100 : ℤ) : ℝ)
                  * pow (1 - pv (1 / 1000) 0) ((0 : ℤ) : ℝ) * (1 - 1 / 1000)
                / (pow (pv (1 / 1000) 0) ((100 : ℤ) : ℝ)
                  * pow (1 - pv (1 / 1000) 0) ((0 : ℤ) : ℝ) * (1 - 1 / 1000)
                  + (b1 - b0) * (1 / 1000)))
        ∧ pow (pv (1 / 1000) 0) ((100 : ℤ) : ℝ)
              * pow (1 - pv (1 / 1000) 0) ((0 : ℤ) : ℝ) * (1 - 1 / 1000)
            / (pow (pv (1 / 1000) 0) ((100 : ℤ) : ℝ)
              * pow (1 - pv (1 / 1000) 0) ((0 : ℤ) : ℝ) * (1 - 1 / 1000)
              + (b1 - b0) * (1 / 1000)) < 0.01) := by
  have hp0 : pv (1 / 1000) 0 = 1 / 1000 := by unfold pv; norm_num
  have hp1 : pv (1 / 1000) 1 = 999 / 1000 := by unfold pv; norm_num
  have c1 : ((0 + 1 : ℤ) : ℝ) = 1 := by norm_num
  have c101 : ((100 + 1 : ℤ) : ℝ) = 101 := by norm_num
  obtain ⟨-, -, -, a1, a0, b1, b0⟩ := beta_inc_values
  have pow_int_zero : ∀ x : ℝ, pow x ((0 : ℤ) : ℝ) = 1 := by
    intro x
    unfold pow
    rw [Int.cast_zero, Real.rpow_zero]
  have pow_int_hundred : ∀ x : ℝ, pow x ((100 : ℤ) : ℝ) = x ^ 100 := by
    intro x
    unfold pow
    have e : ((100 : ℤ) : ℝ) = ((100 : ℕ) : ℝ) := by norm_num
    rw [e, Real.rpow_natCast]
  constructor
  · refine ⟨_, _, by rw [c1, c101, hp1]; exact a1, by rw [c1, c101, hp0]; exact a0, ?_, ?_⟩
    · unfold varcall_pval
      simp only [eq_self_iff_true, if_true, c1, c101, hp0, hp1, a1, a0, bind, Except.bind,
        pure, Except.pure]
    · rw [hp0, pow_int_zero, pow_int_hundred]
      norm_num
  · refine ⟨_, _, by rw [c1, c101, hp1]; exact b1, by rw [c1, c101, hp0]; exact b0, ?_, ?_⟩
    · unfold varcall_pval
      simp only [eq_self_iff_true, if_true, c1, c101, hp0, hp1, b1, b0, bind, Except.bind,
        pure, Except.pure]
    · rw [hp0, pow_int_zero, pow_int_hundred]
      norm_num

/-! ## C15: `ref_lnlik` against `genotype_lnlik HOMOREF` -/

/-- C15 on the code: with `contam > 0`, `ref_lnlik` and `genotype_lnlik HOMOREF` are the
same computation; with `contam = 0`, `ref_lnlik` is `genotype_lnlik HOMOREF` minus
`log (1 − 2·error)`; at the failing input `kr = kv = 0`, `error = 1/4`, `contam = 0`,
`ref_lnlik` returns `ln 2` where `genotype_lnlik HOMOREF` returns `0`. -/
theorem ref_lnlik_extra_term :
    (∀ (kr kv : ℤ) (error contam : ℝ), 0 < contam →
        ref_lnlik kr kv error contam = genotype_lnlik HOMOREF kr kv error contam)
      ∧ (∀ (kr kv : ℤ) (error : ℝ),
          ref_lnlik kr kv error 0
            = (genotype_lnlik HOMOREF kr kv error 0).map
                (fun g => g - Real.log (1 - 2 * error)))
      ∧ ref_lnlik 0 0 (1 / 4) 0 = Except.ok (Real.log 2)
      ∧ genotype_lnlik HOMOREF 0 0 (1 / 4) 0 = Except.ok 0
      ∧ Real.log 2 ≠ 0 := by
  have hzero : ∀ (kr kv : ℤ) (error : ℝ),
      ref_lnlik kr kv error 0
        = (genotype_lnlik HOMOREF kr kv error 0).map
            (fun g => g - Real.log (1 - 2 * error)) := by
    intro kr kv error
    have e : (kr + kv + 1 : ℤ) = kv + kr + 1 := by ring
    unfold ref_lnlik genotype_lnlik
    simp only [if_true, e, bind, Except.bind, pure, Except.pure, Except.map, Except.ok.injEq]
    ring
  have hg : genotype_lnlik HOMOREF 0 0 (1 / 4) 0 = Except.ok 0 := by
    rw [(genotype_lnlik_zero_contam.2.1 0 0 (1 / 4)).1]
    unfold ln_binom_kernel
    simp [lgamma_facts.2.1]
  have hl : Real.log (1 - 2 * (1 / 4)) = -Real.log 2 := by
    have e : (1 : ℝ) - 2 * (1 / 4) = 2⁻¹ := by norm_num
    rw [e, Real.log_inv]
  refine ⟨?_, hzero, ?_, hg, (Real.log_pos (by norm_num)).ne'⟩
  · intro kr kv error contam hc
    have h0 : ¬ contam = 0 := hc.ne'
    have h1 : contam ≥ 0 := hc.le
    have e : (kr + kv + 1 : ℤ) = kv + kr + 1 := by ring
    unfold ref_lnlik genotype_lnlik
    simp only [h0, hc, h1, if_true, if_false, e, bind, Except.bind, pure, Except.pure]
    cases ln_beta_incdiff_kernel (pv error 0) (pv error contam) (kv + 1) (kr + 1) with
    | error err => rfl
    | ok k =>
      simp only [Except.ok.injEq]
      ring
  · rw [hzero, hg]
    simp only [Except.map, hl]
    norm_num

/-! ## C16: the Hardy–Weinberg prior -/

/-- C16: `genotype_prior_HWE` is the Hardy–Weinberg prior `p²`, `2p(1−p)`, `(1−p)²` for
`HOMOVAR`, `HET`, `HOMOREF`, and the three priors sum to one. -/
theorem genotype_prior_HWE_spec (p : ℝ) :
    genotype_prior_HWE HOMOVAR p = p ^ 2
      ∧ genotype_prior_HWE HET p = 2 * p * (1 - p)
      ∧ genotype_prior_HWE HOMOREF p = (1 - p) ^ 2
      ∧ genotype_prior_HWE HOMOVAR p + genotype_prior_HWE HET p
          + genotype_prior_HWE HOMOREF p = 1 := by
  have h1 : ¬ HET = HOMOVAR := by decide
  have h2 : ¬ HOMOREF = HOMOVAR := by decide
  have h3 : ¬ HOMOREF = HET := by decide
  have e1 : genotype_prior_HWE HOMOVAR p = p * p := by
    unfold genotype_prior_HWE
    simp only [if_true]
  have e2 : genotype_prior_HWE HET p = 2 * p * (1 - p) := by
    unfold genotype_prior_HWE
    simp only [h1, if_false, if_true]
  have e3 : genotype_prior_HWE HOMOREF p = 1 - 2 * p * (1 - p) - p * p := by
    unfold genotype_prior_HWE
    simp only [h2, h3, if_false]
  rw [e1, e2, e3]
  refine ⟨?_, rfl, ?_, ?_⟩ <;> ring

/-! ## C17: `somatic_lnlik` and `alt_lnlik` -/

/-- C17: `somatic_lnlik` and `alt_lnlik` are the same function: both fail when
`ln_beta_incdiff_kernel (pv 0) (pv 1) (kv+1) (kr+1)` fails, and otherwise both return
that value `− ln (1 − 2·error) + lgamma (kr+kv+1) − lgamma (kv+1) − lgamma (kr+1)`. -/
theorem somatic_lnlik_eq_alt_lnlik (kr kv : ℤ) (error : ℝ) :
    somatic_lnlik kr kv error = alt_lnlik kr kv error
      ∧ alt_lnlik kr kv error
        = (ln_beta_incdiff_kernel (pv error 0) (pv error 1) (kv + 1) (kr + 1)).map
            (fun k => k - Real.log (1 - 2 * error) + lgamma ((kr + kv + 1 : ℤ) : ℝ)
              - lgamma ((kv + 1 : ℤ) : ℝ) - lgamma ((kr + 1 : ℤ) : ℝ)) := by
  have e : (kv + kr + 1 : ℤ) = kr + kv + 1 := by ring
  constructor
  · unfold somatic_lnlik alt_lnlik
    simp only [e]
  · unfold alt_lnlik
    simp only [bind, Except.bind, pure, Except.pure, Except.map]

/-! ## C18: `ln_beta_incdiff_kernel` is `ln_substract` of two `ln_beta_inc` values -/

/-- C18: for `p1`, `p2` in `(0,1)` and integers `a, b ≥ 1`, with
`(p1', p2', a', b') = (1−p2, 1−p1, b, a)` when both `p1` and `p2` exceed `(a+1)/(a+b+2)` and
`(p1, p2, a, b)` otherwise, whenever `ln_beta_inc a' b' p1'` returns `l1` and
`ln_beta_inc a' b' p2'` returns `l2`, `ln_beta_incdiff_kernel p1 p2 a b` returns
`ln_substract l2 l1`. -/
theorem ln_beta_incdiff_kernel_eq_ln_substract (p1 p2 : ℝ) (a b : ℤ) (l1 l2 : ℝ)
    (_hp1 : 0 < p1 ∧ p1 < 1) (_hp2 : 0 < p2 ∧ p2 < 1) (_ha : 1 ≤ a) (_hb : 1 ≤ b)
    (h1 : ln_beta_inc
        (((if p1 > ((a : ℝ) + 1) / ((a : ℝ) + (b : ℝ) + 2)
              ∧ p2 > ((a : ℝ) + 1) / ((a : ℝ) + (b : ℝ) + 2) then b else a : ℤ)) : ℝ)
        (((if p1 > ((a : ℝ) + 1) / ((a : ℝ) + (b : ℝ) + 2)
              ∧ p2 > ((a : ℝ) + 1) / ((a : ℝ) + (b : ℝ) + 2) then a else b : ℤ)) : ℝ)
        (if p1 > ((a : ℝ) + 1) / ((a : ℝ) + (b : ℝ) + 2)
              ∧ p2 > ((a : ℝ) + 1) / ((a : ℝ) + (b : ℝ) + 2) then 1 - p2 else p1)
      = Except.ok l1)
    (h2 : ln_beta_inc
        (((if p1 > ((a : ℝ) + 1) / ((a : ℝ) + (b : ℝ) + 2)
              ∧ p2 > ((a : ℝ) + 1) / ((a : ℝ) + (b : ℝ) + 2) then b else a : ℤ)) : ℝ)
        (((if p1 > ((a : ℝ) + 1) / ((a : ℝ) + (b : ℝ) + 2)
              ∧ p2 > ((a : ℝ) + 1) / ((a : ℝ) + (b : ℝ) + 2) then a else b : ℤ)) : ℝ)
        (if p1 > ((a : ℝ) + 1) / ((a : ℝ) + (b : ℝ) + 2)
              ∧ p2 > ((a : ℝ) + 1) / ((a : ℝ) + (b : ℝ) + 2) then 1 - p1 else p2)
      = Except.ok l2) :
    ln_beta_incdiff_kernel p1 p2 a b = Except.ok (ln_substract l2 l1) := by
  have ec : (((a + b : ℤ) : ℝ)) = (a : ℝ) + (b : ℝ) := by push_cast; ring
  rw [log_domain_facts.2.2.2.1]
  unfold ln_beta_incdiff_kernel ln_beta_incdiff_return
  by_cases hs : p1 > ((a : ℝ) + 1) / ((a : ℝ) + (b : ℝ) + 2)
      ∧ p2 > ((a : ℝ) + 1) / ((a : ℝ) + (b : ℝ) + 2)
  · simp only [if_pos hs] at h1 h2
    simp only [ec, if_pos hs, h1, h2, bind, Except.bind, pure, Except.pure]
  · simp only [if_neg hs] at h1 h2
    simp only [ec, if_neg hs, h1, h2, bind, Except.bind, pure, Except.pure]

/-- Witness of C18 at `p1 = 1/10`, `p2 = 9/10`, `a = b = 1` (no swap). -/
theorem ln_beta_incdiff_kernel_eq_ln_substract_witness :
    ∃ l1 l2 : ℝ, ln_beta_inc 1 1 (1 / 10) = Except.ok l1
      ∧ ln_beta_inc 1 1 (9 / 10) = Except.ok l2
      ∧ ln_beta_incdiff_kernel (1 / 10) (9 / 10) 1 1 = Except.ok (ln_substract l2 l1) := by
  obtain ⟨l1, e1⟩ := zero_counts_return.1 (1 / 10) (by unfold FPMIN; norm_num)
    (by unfold FPMIN; norm_num)
  obtain ⟨l2, e2⟩ := zero_counts_return.1 (9 / 10) (by unfold FPMIN; norm_num)
    (by unfold FPMIN; norm_num)
  have hs : ¬ ((1 / 10 : ℝ) > (((1 : ℤ) : ℝ) + 1) / (((1 : ℤ) : ℝ) + ((1 : ℤ) : ℝ) + 2)
      ∧ (9 / 10 : ℝ) > (((1 : ℤ) : ℝ) + 1) / (((1 : ℤ) : ℝ) + ((1 : ℤ) : ℝ) + 2)) := by
    norm_num
  exact ⟨l1, l2, e1, e2,
    ln_beta_incdiff_kernel_eq_ln_substract (1 / 10) (9 / 10) 1 1 l1 l2 (by norm_num)
      (by norm_num) le_rfl le_rfl (by rw [if_neg hs, if_neg hs, Int.cast_one]; exact e1)
      (by rw [if_neg hs, if_neg hs, Int.cast_one]; exact e2)⟩

/-! ## C19: `inconsist_score` is never negative -/

/-- C19: for `0 < mu < 1`, every value `v` that `inconsist_score` returns is
`−ln( e^C·(1−mu) / (e^C·(1−mu) + e^I·mu) )` for the values `C = consist_lnlik` and
`I = inconsist_lnlik` computed from the returned kernel and `somatic_lnlik` values, and
therefore `v ≥ 0`. -/
theorem inconsist_score_nonneg (kr_tumor kv_tumor kr_normal kv_normal : ℤ) (mu error v : ℝ)
    (h0 : 0 < mu) (h1 : mu < 1)
    (hv : inconsist_score kr_tumor kv_tumor kr_normal kv_normal mu error = Except.ok v) :
    (∃ k s1 s2 C I : ℝ,
        ln_beta_incdiff_kernel (pv error 0) (pv error 1) (kv_normal + kv_tumor + 1)
            (kr_normal + kr_tumor + 1) = Except.ok k
        ∧ somatic_lnlik kr_tumor kv_tumor error = Except.ok s1
        ∧ somatic_lnlik kr_normal kv_normal error = Except.ok s2
        ∧ C = k - Real.log (1 - 2 * error)
              + (lgamma ((kv_tumor + kr_tumor + 1 : ℤ) : ℝ) - lgamma ((kv_tumor + 1 : ℤ) : ℝ)
                - lgamma ((kr_tumor + 1 : ℤ) : ℝ))
              + (lgamma ((kv_normal + kr_normal + 1 : ℤ) : ℝ)
                - lgamma ((kv_normal + 1 : ℤ) : ℝ) - lgamma ((kr_normal + 1 : ℤ) : ℝ))
        ∧ I = ln_sum2 s1 s2
        ∧ v = -Real.log (Real.exp C * (1 - mu) / (Real.exp C * (1 - mu) + Real.exp I * mu)))
      ∧ 0 ≤ v := by
  have post := log_domain_facts.2.2.2.2.1
  unfold inconsist_score at hv
  cases hk : ln_beta_incdiff_kernel (pv error 0) (pv error 1) (kv_normal + kv_tumor + 1)
      (kr_normal + kr_tumor + 1) with
  | error e => simp [hk, bind, Except.bind] at hv
  | ok k =>
    cases hs1 : somatic_lnlik kr_tumor kv_tumor error with
    | error e => simp [hk, hs1, bind, Except.bind] at hv
    | ok s1 =>
      cases hs2 : somatic_lnlik kr_normal kv_normal error with
      | error e => simp [hk, hs1, hs2, bind, Except.bind] at hv
      | ok s2 =>
        simp only [hk, hs1, hs2, bind, Except.bind, pure, Except.pure, Except.ok.injEq] at hv
        obtain ⟨e1, e2⟩ := post
          (k - Real.log (1 - 2 * error)
            + (lgamma ((kv_tumor + kr_tumor + 1 : ℤ) : ℝ) - lgamma ((kv_tumor + 1 : ℤ) : ℝ)
              - lgamma ((kr_tumor + 1 : ℤ) : ℝ))
            + (lgamma ((kv_normal + kr_normal + 1 : ℤ) : ℝ)
              - lgamma ((kv_normal + 1 : ℤ) : ℝ) - lgamma ((kr_normal + 1 : ℤ) : ℝ)))
          (ln_sum2 s1 s2) mu h0 h1
        rw [e1] at hv
        refine ⟨⟨k, s1, s2, _, _, rfl, rfl, rfl, rfl, rfl, hv.symm⟩, ?_⟩
        rw [← hv]
        exact e2

/-- Witness of C19: with no reads at either site, `mu = 1/2` and `error = 1/10`,
`inconsist_score` returns a value, which is non-negative. -/
theorem inconsist_score_nonneg_witness :
    ∃ v, inconsist_score 0 0 0 0 (1 / 2) (1 / 10) = Except.ok v ∧ 0 ≤ v := by
  obtain ⟨v, hv⟩ := (zero_counts_return.2 (1 / 10) (1 / 2) (1 / 2)
    (by unfold FPMIN; norm_num) (by unfold FPMIN; norm_num)).2
  exact ⟨v, hv, (inconsist_score_nonneg 0 0 0 0 (1 / 2) (1 / 10) v (by norm_num) (by norm_num)
    hv).2⟩

/-! ## C20: an error rate of exactly zero -/

/-- C20: with `error = 0`, `pv(0) = 0` and `pv(1) = 1` reach `ln_beta_inc`, which rejects
every `x ≤ 0` and every `x ≥ 1`: for all `kr, kv ≥ 0`, `alt_lnlik kr kv 0` and
`somatic_lnlik kr kv 0` abort with the `ln_beta_inc` domain error, and consequently
`somatic_posterior` and `inconsist_score` abort for every input with `error = 0`. -/
theorem error_zero_fails (kr kv : ℤ) (_hkr : 0 ≤ kr) (_hkv : 0 ≤ kv) :
    pv 0 0 = 0 ∧ pv 0 1 = 1
      ∧ (∀ a b x : ℝ, x ≤ 0 ∨ x ≥ 1 → ln_beta_inc a b x = Except.error Abort.ln_betai_bad_x)
      ∧ alt_lnlik kr kv 0 = Except.error Abort.ln_betai_bad_x
      ∧ somatic_lnlik kr kv 0 = Except.error Abort.ln_betai_bad_x
      ∧ (∀ (kr_t kv_t kr_n kv_n : ℤ) (mu mu_somatic contam : ℝ),
          ∃ e, somatic_posterior kr_t kv_t kr_n kv_n 0 mu mu_somatic contam = Except.error e)
      ∧ (∀ (kr_t kv_t kr_n kv_n : ℤ) (mu : ℝ),
          inconsist_score kr_t kv_t kr_n kv_n mu 0 = Except.error Abort.ln_betai_bad_x) := by
  have hpv : ∀ f : ℝ, pv 0 f = f := by
    intro f
    unfold pv
    ring
  have hbad : ∀ a b x : ℝ, x ≤ 0 ∨ x ≥ 1 →
      ln_beta_inc a b x = Except.error Abort.ln_betai_bad_x := by
    intro a b x hx
    unfold ln_beta_inc
    simp only [if_pos hx]
  have hat0 : ∀ a b : ℝ, ln_beta_inc a b 0 = Except.error Abort.ln_betai_bad_x :=
    fun a b => hbad a b 0 (Or.inl le_rfl)
  have hat1 : ∀ a b : ℝ, ln_beta_inc a b 1 = Except.error Abort.ln_betai_bad_x :=
    fun a b => hbad a b 1 (Or.inr le_rfl)
  have hker01 : ∀ a b : ℤ,
      ln_beta_incdiff_kernel 0 1 a b = Except.error Abort.ln_betai_bad_x := by
    intro a b
    unfold ln_beta_incdiff_kernel ln_beta_incdiff_return
    split_ifs
    · simp only [sub_self, hat0, bind, Except.bind]
    · simp only [hat0, bind, Except.bind]
  have hker0 : ∀ (p2 : ℝ) (a b : ℤ), ∃ e, ln_beta_incdiff_kernel 0 p2 a b = Except.error e := by
    intro p2 a b
    unfold ln_beta_incdiff_kernel ln_beta_incdiff_return
    split_ifs
    · cases h : ln_beta_inc (b : ℝ) (a : ℝ) (1 - p2) with
      | error e => exact ⟨e, by simp only [bind, Except.bind]⟩
      | ok l =>
        exact ⟨Abort.ln_betai_bad_x, by simp only [sub_zero, hat1, bind, Except.bind]⟩
    · exact ⟨Abort.ln_betai_bad_x, by simp only [hat0, bind, Except.bind]⟩
  have halt : ∀ kr kv : ℤ, alt_lnlik kr kv 0 = Except.error Abort.ln_betai_bad_x := by
    intro kr kv
    unfold alt_lnlik
    simp only [hpv, hker01, bind, Except.bind]
  refine ⟨hpv 0, hpv 1, hbad, halt kr kv, ?_, ?_, ?_⟩
  · unfold somatic_lnlik
    simp only [hpv, hker01, bind, Except.bind]
  · intro kr_t kv_t kr_n kv_n mu mu_somatic contam
    by_cases hc : contam = 0
    · subst hc
      refine ⟨Abort.ln_betai_bad_x, ?_⟩
      unfold somatic_posterior ref_lnlik
      simp only [if_true, halt, bind, Except.bind]
    · have href : ∃ e, ref_lnlik kr_n kv_n 0 contam = Except.error e := by
        unfold ref_lnlik
        rw [if_neg hc]
        split_ifs
        · obtain ⟨e, he⟩ := hker0 contam (kv_n + 1) (kr_n + 1)
          exact ⟨e, by simp only [hpv, he, bind, Except.bind]⟩
        · exact ⟨_, rfl⟩
      obtain ⟨e, he⟩ := href
      refine ⟨e, ?_⟩
      unfold somatic_posterior
      simp only [he, bind, Except.bind]
  · intro kr_t kv_t kr_n kv_n mu
    unfold inconsist_score
    simp only [hpv, hker01, bind, Except.bind]

/-- Witness of C20 at `kr = 10`, `kv = 5`. -/
theorem error_zero_fails_witness :
    alt_lnlik 10 5 0 = Except.error Abort.ln_betai_bad_x
      ∧ somatic_lnlik 10 5 0 = Except.error Abort.ln_betai_bad_x :=
  ⟨(error_zero_fails 10 5 (by norm_num) (by norm_num)).2.2.2.1,
    (error_zero_fails 10 5 (by norm_num) (by norm_num)).2.2.2.2.1⟩

end Stats
